import Mathlib

/-!
# Spreadsheet-to-ledger ingestion pipeline: a shallow embedding

This file embeds the ingestion core of the dashboard repository
(`src/app/api/upload/route.ts` together with the table shapes of
`src/lib/db/schema.ts`) and proves the specification's testable
properties against it.

Modelling conventions:
* Cell values (JS `string | number`) become `CellVal`; JS `parseFloat`
  over a cell's `toString()` becomes `CellVal.parsed`, with a faithful
  prefix parser `jsParseFloat` for string cells.
* Column names are classified exactly as the route's regexes classify
  them: the four case-insensitive day patterns with the parsed integer
  day index, the three literal base columns, and everything else.
  `ColKey` records the result of that classification.
* Calendar dates are integer day numbers; the route's
  `setDate(base.getDate() - k)` is `anchor - k`.
* Prices, quantities and inventories are rationals (JS numbers are
  reals for the arithmetic the route performs; no rounding occurs).
* The Postgres tables are lists of rows; the `serial` id column is a
  `nextId` counter; the unique index on `(productId, recordDate)` is
  the `Nodup` test the transactional insert performs, and a violated
  constraint rolls the whole transaction back (the caller keeps the
  old state).
-/

set_option linter.unusedVariables false

set_option allowUnsafeReducibility true in
attribute [semireducible] Rat.add Rat.sub Rat.mul Rat.div Rat.inv

namespace Dashboard

/-- JS `String.prototype.trim()`: strip whitespace from both ends. -/
def strTrim (s : String) : String :=
  ⟨((s.data.dropWhile Char.isWhitespace).reverse.dropWhile Char.isWhitespace).reverse⟩

/-- Digits of a decimal literal, most significant first, to a natural. -/
def natOfDigits (l : List Char) : Nat :=
  l.foldl (fun a c => a * 10 + (c.toNat - 48)) 0

/-- JS `parseFloat` on a string: skip leading whitespace, optional sign,
integer digits, optional fractional digits, optional exponent; `none`
models `NaN` (no numeric prefix at all). -/
def jsParseFloat (s : String) : Option ℚ :=
  let cs := s.toList.dropWhile Char.isWhitespace
  let (neg, cs1) :=
    match cs with
    | '-' :: r => (true, r)
    | '+' :: r => (false, r)
    | r => (false, r)
  let intDs := cs1.takeWhile Char.isDigit
  let rest1 := cs1.dropWhile Char.isDigit
  let (fracDs, rest2) :=
    match rest1 with
    | '.' :: r => (r.takeWhile Char.isDigit, r.dropWhile Char.isDigit)
    | r => ([], r)
  if intDs.isEmpty && fracDs.isEmpty then none
  else
    let mant : ℚ := (natOfDigits intDs : ℚ) + (natOfDigits fracDs : ℚ) / ((10 : ℚ) ^ fracDs.length)
    let expo : ℤ :=
      match rest2 with
      | 'e' :: r | 'E' :: r =>
        let (eneg, r2) :=
          match r with
          | '-' :: t => (true, t)
          | '+' :: t => (false, t)
          | t => (false, t)
        let eDs := r2.takeWhile Char.isDigit
        if eDs.isEmpty then 0
        else if eneg then -(natOfDigits eDs : ℤ) else (natOfDigits eDs : ℤ)
      | _ => 0
    let v := mant * (10 : ℚ) ^ expo
    some (if neg then -v else v)

/-- A spreadsheet cell value as `sheet_to_json` delivers it: a finite JS
number or a string. -/
inductive CellVal where
  | num (q : ℚ)
  | str (s : String)
deriving DecidableEq, Repr

namespace CellVal

/-- Decimal rendering of a JS number; injective and never empty or
whitespace-only, which is all the route relies on. -/
def ratToStr (q : ℚ) : String :=
  toString q.num ++ (if q.den = 1 then "" else "/" ++ toString q.den)

/-- JS `v.toString()`. -/
def jsToString : CellVal → String
  | num q => ratToStr q
  | str s => s

/-- JS truthiness test `!v` (for a defined cell): `0` and `""` are falsy. -/
def isFalsy : CellVal → Bool
  | num q => q = 0
  | str s => s = ""

/-- Source: `parseFloat(v.toString())`: a number round-trips, a string goes
through the prefix parser; `none` is `NaN`. -/
def parsed : CellVal → Option ℚ
  | num q => some q
  | str s => jsParseFloat s

end CellVal

/-- The route's classification of a column name: the three literal base
columns, the four case-insensitive day-column regexes
`^<Measure> \(Day (\d+)\)$` with the parsed day index, or anything
else. -/
inductive ColKey where
  | id
  | productName
  | openingInventory
  | procurementQty (day : Nat)
  | procurementPrice (day : Nat)
  | salesQty (day : Nat)
  | salesPrice (day : Nat)
  | other (name : String)
deriving DecidableEq, Repr

namespace ColKey

/-- Does the column name match one of the four day-column patterns? -/
def isDayKey : ColKey → Bool
  | procurementQty _ => true
  | procurementPrice _ => true
  | salesQty _ => true
  | salesPrice _ => true
  | _ => false

/-- Day index of a day column. -/
def dayOf : ColKey → Option Nat
  | procurementQty d => some d
  | procurementPrice d => some d
  | salesQty d => some d
  | salesPrice d => some d
  | _ => none

end ColKey

/-- One parsed spreadsheet row: the ordered key/value pairs of the JS
object `sheet_to_json` produced (absent cells simply have no entry; JS
object keys are unique). -/
abbrev Row := List (ColKey × CellVal)

/-- Property access `row[k]` (`undefined` when the column is absent). -/
def findCell (row : Row) (k : ColKey) : Option CellVal :=
  (List.find? (fun p => decide (p.1 = k)) row).map (fun p => p.2)

/-- Source: `parseFloat(value?.toString() || '0') || 0` — the extraction-stage
coercion: any missing or unparseable value becomes `0`. -/
def coerced (c : CellVal) : ℚ :=
  match c with
  | .num q => q
  | .str s => if s = "" then 0 else (jsParseFloat s).getD 0

/-- Same coercion applied to a possibly-absent cell. -/
def coercedOpt (c : Option CellVal) : ℚ :=
  (c.map coerced).getD 0

/-- The per-day accumulator of `extractDayColumns`. -/
structure DayData where
  openingInventory : ℚ
  procurementQty : ℚ
  procurementPrice : ℚ
  salesQty : ℚ
  salesPrice : ℚ
deriving DecidableEq, Repr

/-- The entry `extractDayColumns` creates when a day index is first
seen: the declared opening inventory seeds day 1 only. -/
def initDay (day : Nat) (opening : ℚ) : DayData :=
  { openingInventory := if day = 1 then opening else 0
    procurementQty := 0
    procurementPrice := 0
    salesQty := 0
    salesPrice := 0 }

/-- Source: `if (!dayMap.has(day)) dayMap.set(day, default); dayMap.get(day)!.<f> = v`:
create-if-absent then update one measure.  The map is the association
list in insertion order. -/
def updateDay (m : List (Nat × DayData)) (day : Nat) (opening : ℚ)
    (set : DayData → DayData) : List (Nat × DayData) :=
  if m.any (fun p => decide (p.1 = day)) then
    m.map (fun p => if p.1 = day then (p.1, set p.2) else p)
  else
    m ++ [(day, set (initDay day opening))]

/-- One iteration of the `Object.entries(row)` loop of
`extractDayColumns`. -/
def extractStep (opening : ℚ) (m : List (Nat × DayData)) (kv : ColKey × CellVal) :
    List (Nat × DayData) :=
  match kv.1 with
  | .procurementQty d =>
      updateDay m d opening (fun dd => { dd with procurementQty := coerced kv.2 })
  | .procurementPrice d =>
      updateDay m d opening (fun dd => { dd with procurementPrice := coerced kv.2 })
  | .salesQty d =>
      updateDay m d opening (fun dd => { dd with salesQty := coerced kv.2 })
  | .salesPrice d =>
      updateDay m d opening (fun dd => { dd with salesPrice := coerced kv.2 })
  | _ => m

/-- Insertion into a list sorted ascending by day index. -/
def sortInsert (p : Nat × DayData) : List (Nat × DayData) → List (Nat × DayData)
  | [] => [p]
  | q :: rest => if p.1 ≤ q.1 then p :: q :: rest else q :: sortInsert p rest

/-- Source: `Array.from(dayMap.entries()).sort((a, b) => a - b)`. -/
def sortByDay : List (Nat × DayData) → List (Nat × DayData)
  | [] => []
  | p :: rest => sortInsert p (sortByDay rest)

/-- The day entries of a row, keyed and sorted ascending by day index. -/
def dayEntries (row : Row) : List (Nat × DayData) :=
  let opening := coercedOpt (findCell row .openingInventory)
  sortByDay (List.foldl (extractStep opening) [] row)

/-- Source: `extractDayColumns` of the route: the ordered day observations. -/
def extractDayColumns (row : Row) : List DayData :=
  (dayEntries row).map (fun p => p.2)

/-- A product identity pushed by `processExcelData`. -/
structure ProductEntry where
  productCode : String
  name : String
deriving DecidableEq, Repr

/-- A pre-persistence ledger record of `processExcelData` (the record
still carries the product code; the persister resolves the id). -/
structure RecordEntry where
  productCode : String
  recordDate : ℤ
  openingInventory : ℚ
  procurementQty : ℚ
  procurementPrice : ℚ
  salesQty : ℚ
  salesPrice : ℚ
  closingInventory : ℚ
deriving DecidableEq, Repr

/-- Source: `row.ID?.toString().trim()` / `row['Product Name']?.toString().trim()`
followed by the loop's `if (!productCode || !productName) continue`
guard: the identity of a row, or `none` when the row is skipped. -/
def rowIdentity (row : Row) : Option ProductEntry :=
  match (findCell row .id).map (fun v => strTrim v.jsToString),
        (findCell row .productName).map (fun v => strTrim v.jsToString) with
  | some pc, some pn => if pc = "" ∨ pn = "" then none else some ⟨pc, pn⟩
  | _, _ => none

/-- The inner day loop of `processExcelData`: walk the day observations
carrying `previousClosingInventory`, emitting one record per slot.
`n` is `totalDays`, `idx` the current `dayIndex`, `prev` the running
closing balance.  The record date is
`baseDate - (totalDays - 1 - dayIndex)` days. -/
def ledgerFrom (pc : String) (anchor : ℤ) (n : Nat) :
    Nat → ℚ → List DayData → List RecordEntry
  | _, _, [] => []
  | idx, prev, d :: rest =>
    let opening := if idx = 0 then d.openingInventory else prev
    let closing := opening + d.procurementQty - d.salesQty
    { productCode := pc
      recordDate := anchor - ((n - 1 - idx : Nat) : ℤ)
      openingInventory := opening
      procurementQty := d.procurementQty
      procurementPrice := d.procurementPrice
      salesQty := d.salesQty
      salesPrice := d.salesPrice
      closingInventory := closing } :: ledgerFrom pc anchor n (idx + 1) closing rest

/-- The records one row contributes: nothing when the identity guard
skips the row, else the ledger of its extracted day observations
(empty again when there are zero day slots). -/
def rowRecords (anchor : ℤ) (row : Row) : List RecordEntry :=
  match rowIdentity row with
  | none => []
  | some p =>
    let days := extractDayColumns row
    ledgerFrom p.productCode anchor days.length 0 0 days

/-- Output of `processExcelData`. -/
structure ProcessedData where
  products : List ProductEntry
  records : List RecordEntry
deriving DecidableEq, Repr

/-- Source: `processExcelData` of the route: one pass over the rows, pushing the
product identity of every non-skipped row and then — when the row has at
least one day slot — its ledger records. (A row with a valid identity
but zero day slots still pushes its product: the `totalDays === 0`
`continue` sits after the `products.push`.) -/
def processExcelData (anchor : ℤ) (excelData : List Row) : ProcessedData :=
  List.foldl
    (fun acc row =>
      match rowIdentity row with
      | none => acc
      | some p =>
        let days := extractDayColumns row
        { products := acc.products ++ [p]
          records := acc.records ++ ledgerFrom p.productCode anchor days.length 0 0 days })
    ⟨[], []⟩ excelData

/-! ## Validation -/

/-- The distinct failure messages `validateExcelFormat` can build.  Each
constructor stands for one of the route's template strings, carrying
exactly the data interpolated into it (1-based row numbers, column
names, day indices). -/
inductive ValError where
  | noDataRows
  | missingRequiredColumns (missing : List ColKey)
  | noDayColumns
  | emptyProductId (rowNum : Nat)
  | emptyProductName (rowNum : Nat)
  | invalidOpeningInventory (rowNum : Nat)
  | invalidDayCell (rowNum : Nat) (col : ColKey)
  | noValidDayColumnsFound
  | missingDayQuartet (day : Nat) (missing : List ColKey)
deriving DecidableEq, Repr

/-- Source: `!row.K || row.K.toString().trim() === ''`. -/
def missingOrEmpty (c : Option CellVal) : Bool :=
  match c with
  | none => true
  | some v => v.isFalsy || decide (strTrim v.jsToString = "")

/-- Source: `isNaN(x) || x < 0` for `x = parseFloat(v?.toString() || '')`:
an absent cell parses the empty string, hence `NaN`. -/
def invalidNum (c : Option CellVal) : Bool :=
  match c with
  | none => true
  | some v =>
    match v.parsed with
    | none => true
    | some q => decide (q < 0)

/-- The per-row section of the validation loop, in source order:
product id, product name, opening inventory, then every day-column
cell in column order; the first failure wins. -/
def rowCheck (rowNum : Nat) (row : Row) : Option ValError :=
  if missingOrEmpty (findCell row .id) then some (.emptyProductId rowNum)
  else if missingOrEmpty (findCell row .productName) then some (.emptyProductName rowNum)
  else if invalidNum (findCell row .openingInventory) then some (.invalidOpeningInventory rowNum)
  else
    (List.find? (fun kv => kv.1.isDayKey && invalidNum (some kv.2)) row).map
      (fun kv => .invalidDayCell rowNum kv.1)

/-- The `for (let i = 0; ...)` row loop: rows are numbered from 1 and
the first failing row's error is returned. -/
def rowsCheck : Nat → List Row → Option ValError
  | _, [] => none
  | i, r :: rest =>
    match rowCheck i r with
    | some e => some e
    | none => rowsCheck (i + 1) rest

/-- Ascending insertion sort on day indices. -/
def sortNatInsert (d : Nat) : List Nat → List Nat
  | [] => [d]
  | x :: rest => if d ≤ x then d :: x :: rest else x :: sortNatInsert d rest

/-- Source: `Array.from(set).sort((a, b) => a - b)`. -/
def sortNat : List Nat → List Nat
  | [] => []
  | d :: rest => sortNatInsert d (sortNat rest)

/-- The four column names `Missing columns for Day N` enumerates. -/
def quartetMissing (cols : List ColKey) (d : Nat) : List ColKey :=
  [ColKey.procurementQty d, ColKey.procurementPrice d,
   ColKey.salesQty d, ColKey.salesPrice d].filter
    (fun k => !(cols.any (fun c => decide (c = k))))

/-- The tail of `validateExcelFormat`: collect the set of day numbers
appearing in the first row's columns, then demand the full quartet for
each day, ascending. -/
def quartetCheck (cols : List ColKey) : Option ValError :=
  let days := sortNat ((cols.filterMap ColKey.dayOf).eraseDups)
  if days = [] then some .noValidDayColumnsFound
  else
    days.findSome? (fun d =>
      let m := quartetMissing cols d
      if m = [] then none else some (.missingDayQuartet d m))

/-- The base columns demanded of the first row. -/
def requiredColumns : List ColKey := [.id, .productName, .openingInventory]

/-- Source: `validateExcelFormat` of the route; `none` is `isValid: true`.
Check order, exactly as in the source: no rows → required base columns
of the first row → at least one day-patterned column → the per-row loop
→ day-number collection and quartet completeness. -/
def validateExcelFormat (rows : List Row) : Option ValError :=
  match rows with
  | [] => some .noDataRows
  | first :: _ =>
    let cols := first.map (fun p => p.1)
    let missing := requiredColumns.filter (fun k => !(cols.any (fun c => decide (c = k))))
    if missing ≠ [] then some (.missingRequiredColumns missing)
    else if !(cols.any ColKey.isDayKey) then some .noDayColumns
    else
      match rowsCheck 1 rows with
      | some e => some e
      | none => quartetCheck cols

/-! ## The datastore and the transactional persister -/

/-- A row of the `products` table (`id serial primary key`,
`product_code unique`, `name`). -/
structure ProductRow where
  id : Nat
  productCode : String
  name : String
deriving DecidableEq, Repr

/-- A row of the `daily_records` table (the surrogate `id serial` plays
no role in any claim and is omitted; `(productId, recordDate)` is the
unique key). -/
structure DailyRecordRow where
  productId : Nat
  recordDate : ℤ
  openingInventory : ℚ
  procurementQty : ℚ
  procurementPrice : ℚ
  salesQty : ℚ
  salesPrice : ℚ
  closingInventory : ℚ
deriving DecidableEq, Repr

/-- The datastore: both tables plus the `serial` counter feeding
`products.id`. -/
structure DB where
  nextId : Nat
  products : List ProductRow
  dailyRecords : List DailyRecordRow
deriving DecidableEq, Repr

/-- The unique key of `daily_records`. -/
def recordKey (r : DailyRecordRow) : Nat × ℤ :=
  (r.productId, r.recordDate)

/-- Well-formedness the schema's constraints guarantee of any committed
state: product codes unique, product ids unique and below the serial
counter. -/
def DB.wf (db : DB) : Prop :=
  (db.products.map (fun p => p.productCode)).Nodup ∧
  (db.products.map (fun p => p.id)).Nodup ∧
  ∀ p ∈ db.products, p.id < db.nextId

/-- Source: `insert(products).values(...).onConflictDoUpdate({target: productCode,
set: {name}}).returning()`: keyed by `productCode`, insert a fresh row
or update the name of the existing one; the affected row is returned. -/
def upsertProduct (db : DB) (pc nm : String) : ProductRow × DB :=
  match db.products.find? (fun p => decide (p.productCode = pc)) with
  | some p =>
    (⟨p.id, p.productCode, nm⟩,
     { db with products :=
         db.products.map (fun q => if q.productCode = pc then ⟨q.id, q.productCode, nm⟩ else q) })
  | none =>
    (⟨db.nextId, pc, nm⟩,
     { db with nextId := db.nextId + 1
               products := db.products ++ [⟨db.nextId, pc, nm⟩] })

/-- Source: `delete(dailyRecords).where(eq(dailyRecords.productId, id))`. -/
def deleteProductRecords (db : DB) (pid : Nat) : DB :=
  { db with dailyRecords := db.dailyRecords.filter (fun r => !decide (r.productId = pid)) }

/-- Resolving a processed record against the product id the upsert
returned. -/
def toDailyRecord (pid : Nat) (r : RecordEntry) : DailyRecordRow :=
  { productId := pid
    recordDate := r.recordDate
    openingInventory := r.openingInventory
    procurementQty := r.procurementQty
    procurementPrice := r.procurementPrice
    salesQty := r.salesQty
    salesPrice := r.salesPrice
    closingInventory := r.closingInventory }

/-- The `for (const productData of processedData.products)` loop of the
transaction: upsert the product, clear its existing records, and
collect (`allDailyRecords.push(...)`) this product's share of the
processed records.  Returns the evolved store, the collected records in
push order, and `productsProcessed`. -/
def processProducts (pd : ProcessedData) :
    List ProductEntry → DB → DB × List DailyRecordRow × Nat
  | [], db => (db, [], 0)
  | prod :: rest, db =>
    let pr := upsertProduct db prod.productCode prod.name
    let db2 := deleteProductRecords pr.2 pr.1.id
    let newRecs :=
      (pd.records.filter (fun r => decide (r.productCode = prod.productCode))).map
        (toDailyRecord pr.1.id)
    let out := processProducts pd rest db2
    (out.1, newRecs ++ out.2.1, out.2.2 + 1)

/-- The success payload of the route. -/
structure Summary where
  productsProcessed : Nat
  recordsCreated : Nat
deriving DecidableEq, Repr

/-- The whole `db.transaction`: run the product loop, then bulk-insert
the collected records.  The unique index on `(productId, recordDate)`
aborts the insert — and with it the entire transaction — when the
combined table would contain a duplicate key; `none` is the rolled-back
transaction (the caller's state is unchanged). -/
def uploadProcessed (pd : ProcessedData) (db : DB) : Option (DB × Summary) :=
  let out := processProducts pd pd.products db
  let db1 := out.1
  let allRecs := out.2.1
  if allRecs = [] then some (db1, ⟨out.2.2, 0⟩)
  else if ((db1.dailyRecords ++ allRecs).map recordKey).Nodup then
    some ({ db1 with dailyRecords := db1.dailyRecords ++ allRecs },
          ⟨out.2.2, allRecs.length⟩)
  else none

/-- The `POST` handler from step 3 on: validate, process, commit.
`none` covers both the 400 validation rejection and the rolled-back
transaction error; `anchor` is `baseDate` (today at midnight) as an
integer day number. -/
def uploadSheet (anchor : ℤ) (rows : List Row) (db : DB) : Option (DB × Summary) :=
  match validateExcelFormat rows with
  | some _ => none
  | none => uploadProcessed (processExcelData anchor rows) db

/-- The datastore as the client observes it after the request: the
committed state on success, the untouched previous state on any
rejection or rollback. -/
def applyUpload (anchor : ℤ) (rows : List Row) (db : DB) : DB :=
  match uploadSheet anchor rows db with
  | some (db', _) => db'
  | none => db

/-! ## Ledger-builder lemmas -/

theorem ledgerFrom_closing (pc : String) (anchor : ℤ) (n : Nat) :
    ∀ (days : List DayData) (idx : Nat) (prev : ℚ) (r : RecordEntry),
      r ∈ ledgerFrom pc anchor n idx prev days →
      r.closingInventory = r.openingInventory + r.procurementQty - r.salesQty := by
  intro days
  induction days with
  | nil => intro idx prev r h; simp [ledgerFrom] at h
  | cons d rest ih =>
    intro idx prev r h
    simp only [ledgerFrom, List.mem_cons] at h
    rcases h with h | h
    · subst h; rfl
    · exact ih _ _ _ h

theorem ledgerFrom_code (pc : String) (anchor : ℤ) (n : Nat) :
    ∀ (days : List DayData) (idx : Nat) (prev : ℚ) (r : RecordEntry),
      r ∈ ledgerFrom pc anchor n idx prev days → r.productCode = pc := by
  intro days
  induction days with
  | nil => intro idx prev r h; simp [ledgerFrom] at h
  | cons d rest ih =>
    intro idx prev r h
    simp only [ledgerFrom, List.mem_cons] at h
    rcases h with h | h
    · subst h; rfl
    · exact ih _ _ _ h

theorem ledgerFrom_length (pc : String) (anchor : ℤ) (n : Nat) :
    ∀ (days : List DayData) (idx : Nat) (prev : ℚ),
      (ledgerFrom pc anchor n idx prev days).length = days.length := by
  intro days
  induction days with
  | nil => intro idx prev; rfl
  | cons d rest ih => intro idx prev; simp [ledgerFrom, ih]

theorem ledgerFrom_chain_balance (pc : String) (anchor : ℤ) (n : Nat) :
    ∀ (days : List DayData) (idx : Nat) (prev : ℚ),
      List.Chain' (fun a b => b.openingInventory = a.closingInventory)
        (ledgerFrom pc anchor n idx prev days) := by
  intro days
  induction days with
  | nil => intro idx prev; simp [ledgerFrom]
  | cons d rest ih =>
    intro idx prev
    rw [ledgerFrom, List.chain'_cons']
    refine ⟨?_, ih _ _⟩
    intro b hb
    cases rest with
    | nil => simp [ledgerFrom] at hb
    | cons d2 rest2 =>
      simp only [ledgerFrom, List.head?_cons, Option.mem_def, Option.some.injEq] at hb
      subst hb
      rfl

theorem ledgerFrom_dates (pc : String) (anchor : ℤ) (n : Nat) :
    ∀ (days : List DayData) (idx : Nat) (prev : ℚ),
      (ledgerFrom pc anchor n idx prev days).map (fun r => r.recordDate)
        = (List.range days.length).map (fun j => anchor - ((n - 1 - (idx + j) : Nat) : ℤ)) := by
  intro days
  induction days with
  | nil => intro idx prev; rfl
  | cons d rest ih =>
    intro idx prev
    rw [ledgerFrom, List.map_cons, List.length_cons, List.range_succ_eq_map,
      List.map_cons, List.map_map]
    refine congrArg₂ _ (by simp) ?_
    rw [ih (idx + 1) _]
    refine List.map_congr_left ?_
    intro j hj
    simp only [Function.comp_apply]
    congr 2
    omega

theorem ledgerFrom_chain_dates (pc : String) (anchor : ℤ) (n : Nat) :
    ∀ (days : List DayData) (idx : Nat) (prev : ℚ), idx + days.length = n →
      List.Chain' (fun a b => b.recordDate = a.recordDate + 1)
        (ledgerFrom pc anchor n idx prev days) := by
  intro days
  induction days with
  | nil => intro idx prev _; simp [ledgerFrom]
  | cons d rest ih =>
    intro idx prev hn
    rw [ledgerFrom, List.chain'_cons']
    refine ⟨?_, ih _ _ (by simp only [List.length_cons] at hn; omega)⟩
    intro b hb
    cases rest with
    | nil => simp [ledgerFrom] at hb
    | cons d2 rest2 =>
      simp only [ledgerFrom, List.head?_cons, Option.mem_def, Option.some.injEq] at hb
      subst hb
      show anchor - ((n - 1 - (idx + 1) : Nat) : ℤ) = anchor - ((n - 1 - idx : Nat) : ℤ) + 1
      have : idx + 1 + (rest2.length + 1) = n := by simp only [List.length_cons] at hn; omega
      omega

/-! ## Extraction lemmas -/

theorem updateDay_opening_inv (m : List (Nat × DayData)) (day : Nat) (opening : ℚ)
    (set : DayData → DayData)
    (hset : ∀ dd, (set dd).openingInventory = dd.openingInventory)
    (hm : ∀ p ∈ m, p.2.openingInventory = if p.1 = 1 then opening else 0) :
    ∀ p ∈ updateDay m day opening set,
      p.2.openingInventory = if p.1 = 1 then opening else 0 := by
  intro p hp
  unfold updateDay at hp
  by_cases hc : m.any (fun p => decide (p.1 = day))
  · rw [if_pos hc] at hp
    rcases List.mem_map.mp hp with ⟨q, hq, hqe⟩
    by_cases hqd : q.1 = day
    · rw [if_pos hqd] at hqe
      subst hqe
      simpa [hset] using hm q hq
    · rw [if_neg hqd] at hqe
      subst hqe
      exact hm q hq
  · rw [if_neg hc] at hp
    rcases List.mem_append.mp hp with hp | hp
    · exact hm p hp
    · rcases List.mem_singleton.mp hp with rfl
      simp [hset, initDay]

theorem extractStep_opening_inv (opening : ℚ) :
    ∀ (l : List (ColKey × CellVal)) (m : List (Nat × DayData)),
      (∀ p ∈ m, p.2.openingInventory = if p.1 = 1 then opening else 0) →
      ∀ p ∈ List.foldl (extractStep opening) m l,
        p.2.openingInventory = if p.1 = 1 then opening else 0 := by
  intro l
  induction l with
  | nil => intro m hm; exact hm
  | cons kv rest ih =>
    intro m hm
    refine ih _ ?_
    cases hk : kv.1 <;>
      simp only [extractStep, hk] <;>
      first
        | exact hm
        | exact updateDay_opening_inv _ _ _ _ (fun dd => rfl) hm

theorem mem_sortInsert (p q : Nat × DayData) :
    ∀ l, q ∈ sortInsert p l ↔ q ∈ p :: l := by
  intro l
  induction l with
  | nil => simp [sortInsert]
  | cons x rest ih =>
    by_cases h : p.1 ≤ x.1
    · simp [sortInsert, h]
    · simp only [sortInsert, if_neg h, List.mem_cons, ih]
      tauto

theorem mem_sortByDay (q : Nat × DayData) :
    ∀ l, q ∈ sortByDay l ↔ q ∈ l := by
  intro l
  induction l with
  | nil => simp [sortByDay]
  | cons x rest ih => simp [sortByDay, mem_sortInsert, ih]

theorem sortInsert_sorted (p : Nat × DayData) :
    ∀ l, List.Pairwise (fun a b : Nat × DayData => a.1 ≤ b.1) l →
      List.Pairwise (fun a b : Nat × DayData => a.1 ≤ b.1) (sortInsert p l) := by
  intro l
  induction l with
  | nil => intro _; simp [sortInsert]
  | cons x rest ih =>
    intro hl
    rcases List.pairwise_cons.mp hl with ⟨hx, hrest⟩
    by_cases h : p.1 ≤ x.1
    · rw [sortInsert, if_pos h]
      refine List.pairwise_cons.mpr ⟨?_, hl⟩
      intro b hb
      rcases List.mem_cons.mp hb with rfl | hb
      · exact h
      · exact le_trans h (hx b hb)
    · rw [sortInsert, if_neg h]
      refine List.pairwise_cons.mpr ⟨?_, ih hrest⟩
      intro b hb
      rcases List.mem_cons.mp ((mem_sortInsert p b rest).mp hb) with rfl | hb
      · omega
      · exact hx b hb

theorem sortByDay_sorted :
    ∀ l, List.Pairwise (fun a b : Nat × DayData => a.1 ≤ b.1) (sortByDay l) := by
  intro l
  induction l with
  | nil => simp [sortByDay]
  | cons x rest ih => exact sortInsert_sorted x _ ih

/-- Every entry of `dayEntries` seeds its opening inventory with the
declared value exactly on day index 1. -/
theorem dayEntries_opening (row : Row) :
    ∀ p ∈ dayEntries row,
      p.2.openingInventory =
        if p.1 = 1 then coercedOpt (findCell row .openingInventory) else 0 := by
  intro p hp
  have hp' : p ∈ List.foldl (extractStep (coercedOpt (findCell row .openingInventory))) [] row :=
    (mem_sortByDay p _).mp hp
  exact extractStep_opening_inv _ row [] (by simp) p hp'

/-! ## `processExcelData` characterization -/

theorem processExcelData_go (anchor : ℤ) :
    ∀ (rows : List Row) (acc : ProcessedData),
      List.foldl
        (fun acc row =>
          match rowIdentity row with
          | none => acc
          | some p =>
            let days := extractDayColumns row
            { products := acc.products ++ [p]
              records := acc.records ++ ledgerFrom p.productCode anchor days.length 0 0 days })
        acc rows
      = ⟨acc.products ++ rows.filterMap rowIdentity,
         acc.records ++ rows.flatMap (rowRecords anchor)⟩ := by
  intro rows
  induction rows with
  | nil => intro acc; simp
  | cons row rest ih =>
    intro acc
    rw [List.foldl_cons, List.filterMap_cons, List.flatMap_cons]
    cases hid : rowIdentity row with
    | none =>
      simp only [hid]
      rw [ih acc]
      simp [rowRecords, hid]
    | some p =>
      simp only [hid]
      rw [ih]
      simp [rowRecords, hid, List.append_assoc]

theorem processExcelData_eq (anchor : ℤ) (rows : List Row) :
    processExcelData anchor rows
      = ⟨rows.filterMap rowIdentity, rows.flatMap (rowRecords anchor)⟩ := by
  unfold processExcelData
  rw [processExcelData_go]
  simp

theorem mem_processExcelData_records {anchor : ℤ} {rows : List Row} {r : RecordEntry} :
    r ∈ (processExcelData anchor rows).records ↔
      ∃ row ∈ rows, r ∈ rowRecords anchor row := by
  rw [processExcelData_eq]
  simp [List.mem_flatMap]

theorem rowRecords_law {anchor : ℤ} {row : Row} {r : RecordEntry}
    (h : r ∈ rowRecords anchor row) :
    r.closingInventory = r.openingInventory + r.procurementQty - r.salesQty := by
  unfold rowRecords at h
  cases hid : rowIdentity row with
  | none => rw [hid] at h; simp at h
  | some p =>
    rw [hid] at h
    exact ledgerFrom_closing _ _ _ _ _ _ _ h

/-! ## Example sheets used to instantiate the claims -/

/-- A complete day-`d` quartet of numeric cells. -/
def dayQuartet (d : Nat) (pq pp sq sp : ℚ) : Row :=
  [(ColKey.procurementQty d, CellVal.num pq),
   (ColKey.procurementPrice d, CellVal.num pp),
   (ColKey.salesQty d, CellVal.num sq),
   (ColKey.salesPrice d, CellVal.num sp)]

/-- A two-day product row used to instantiate the date-contiguity law. -/
def c3Row : Row :=
  [(ColKey.id, CellVal.str "P001"),
   (ColKey.productName, CellVal.str "iPhone 15"),
   (ColKey.openingInventory, CellVal.num 100)]
    ++ dayQuartet 1 50 5000 30 6500 ++ dayQuartet 2 0 0 40 6500

/-- A row whose only recognized day index is 2 — it passes validation,
yet its first slot does not see the declared opening inventory. -/
def c4Row : Row :=
  [(ColKey.id, CellVal.str "P1"),
   (ColKey.productName, CellVal.str "X"),
   (ColKey.openingInventory, CellVal.num 5)]
    ++ dayQuartet 2 3 1 1 2

/-- A row whose only recognized day index is 1, for the amended claim. -/
def c4WitRow : Row :=
  [(ColKey.id, CellVal.str "P2"),
   (ColKey.productName, CellVal.str "Y"),
   (ColKey.openingInventory, CellVal.num 9)]
    ++ dayQuartet 1 4 1 1 2

/-- A row with a parametric Opening Inventory cell and otherwise valid
data. -/
def c5Row (code nm : String) (q : ℚ) : Row :=
  [(ColKey.id, CellVal.str code),
   (ColKey.productName, CellVal.str nm),
   (ColKey.openingInventory, CellVal.num q)]
    ++ dayQuartet 1 1 1 1 1

/-- A row carrying both an incomplete day-1 quartet (only the
procurement quantity column) and a row-level defect (negative opening
inventory). -/
def c6Row : Row :=
  [(ColKey.id, CellVal.str "P1"),
   (ColKey.productName, CellVal.str "X"),
   (ColKey.openingInventory, CellVal.num (-5)),
   (ColKey.procurementQty 1, CellVal.num 3)]

/-- A row with an incomplete quartet and an empty product name, for the
amended ordering claim's witness. -/
def c6WitRow : Row :=
  [(ColKey.id, CellVal.str "P9"),
   (ColKey.productName, CellVal.str ""),
   (ColKey.openingInventory, CellVal.num 2),
   (ColKey.salesQty 3, CellVal.num 1)]

/-! ## C3: date contiguity -/

/-- C3. For every product row of a sheet that passes validation,
with `n` extracted day slots, the produced ledger has `n` records; the
record in slot `i` is dated `anchor - (n - 1 - i)`; consecutive records
are dated on consecutive days (so there are no gaps and no duplicates);
and when `n > 0` the last record is dated exactly on the anchor. -/
theorem c3_date_contiguity (anchor : ℤ) (rows : List Row) (row : Row) (p : ProductEntry)
    (hv : validateExcelFormat rows = none) (hrow : row ∈ rows)
    (hid : rowIdentity row = some p) :
    (rowRecords anchor row).length = (extractDayColumns row).length ∧
    (∀ i : Nat, i < (extractDayColumns row).length →
      ((rowRecords anchor row)[i]?).map (fun r => r.recordDate)
        = some (anchor - (((extractDayColumns row).length - 1 - i : Nat) : ℤ))) ∧
    List.Chain' (fun a b => b.recordDate = a.recordDate + 1) (rowRecords anchor row) ∧
    (0 < (extractDayColumns row).length →
      ((rowRecords anchor row).getLast?).map (fun r => r.recordDate) = some anchor) := by
  have hrr : rowRecords anchor row
      = ledgerFrom p.productCode anchor (extractDayColumns row).length 0 0
          (extractDayColumns row) := by
    unfold rowRecords
    rw [hid]
  set days := extractDayColumns row with hdays
  set n := days.length with hn
  have hmap : (rowRecords anchor row).map (fun r => r.recordDate)
      = (List.range n).map (fun j => anchor - ((n - 1 - j : Nat) : ℤ)) := by
    rw [hrr, ledgerFrom_dates]
    exact List.map_congr_left (fun j hj => by norm_num)
  refine ⟨by rw [hrr]; exact ledgerFrom_length _ _ _ _ _ _, ?_, ?_, ?_⟩
  · intro i hi
    have : ((rowRecords anchor row).map (fun r => r.recordDate))[i]?
        = ((rowRecords anchor row)[i]?).map (fun r => r.recordDate) := by
      simp
    rw [← this, hmap]
    simp [hi]
  · rw [hrr]
    exact ledgerFrom_chain_dates _ _ _ _ _ _ (by simp)
  · intro hpos
    have hlast : ((rowRecords anchor row).map (fun r => r.recordDate)).getLast?
        = ((rowRecords anchor row).getLast?).map (fun r => r.recordDate) := by
      simp [List.getLast?_map]
    obtain ⟨m, hm⟩ : ∃ m, n = m + 1 := ⟨n - 1, by omega⟩
    rw [← hlast, hmap, hm, List.range_succ, List.map_append]
    simp

/-- Witness for C3 at a concrete two-day sheet: both hypotheses hold
and the produced ledger is dated `anchor - 1`, `anchor`. -/
theorem c3_date_contiguity_witness :
    validateExcelFormat [c3Row] = none ∧
    ((rowRecords 40000 c3Row).getLast?).map (fun r => r.recordDate) = some 40000 := by
  refine ⟨by decide, ?_⟩
  have h := c3_date_contiguity 40000 [c3Row] c3Row ⟨"P001", "iPhone 15"⟩
    (by decide) (by simp) (by decide)
  exact h.2.2.2 (by decide)

/-! ## C4: slot-0 opening inventory -/

/-- C4 fails on the code.  `c4Row` is a valid row (the sheet passes
validation) whose declared Opening Inventory is `5`, yet because its
only day index is 2 — not 1 — the first produced slot opens at `0`,
not at the declared value. -/
theorem c4_counterexample :
    validateExcelFormat [c4Row] = none ∧
    rowIdentity c4Row = some ⟨"P1", "X"⟩ ∧
    coercedOpt (findCell c4Row .openingInventory) = 5 ∧
    (rowRecords 0 c4Row).map (fun r => r.openingInventory) = [0] := by
  decide

/-- C4 amended.  Slot 0 of a row's ledger opens at the sheet's
declared Opening Inventory exactly when the smallest recognized day
index is 1; when day 1 is absent the first slot opens at `0` instead.
(`d0` is the first — smallest — day entry.) -/
theorem c4_slot0_opening_amended (anchor : ℤ) (row : Row) (p : ProductEntry)
    (d0 : Nat × DayData) (rest : List (Nat × DayData))
    (hid : rowIdentity row = some p)
    (hday : dayEntries row = d0 :: rest) :
    ((rowRecords anchor row).head?).map (fun r => r.openingInventory)
      = some (if d0.1 = 1 then coercedOpt (findCell row .openingInventory) else 0) ∧
    (∀ q ∈ dayEntries row, d0.1 ≤ q.1) := by
  constructor
  · have hrr : rowRecords anchor row
        = ledgerFrom p.productCode anchor (extractDayColumns row).length 0 0
            (extractDayColumns row) := by
      unfold rowRecords
      rw [hid]
    have hcols : extractDayColumns row = d0.2 :: rest.map (fun p => p.2) := by
      unfold extractDayColumns
      rw [hday]
      rfl
    have hopen := dayEntries_opening row d0 (by rw [hday]; exact List.mem_cons_self _ _)
    rw [hrr, hcols, ledgerFrom]
    simp only [List.head?_cons, Option.map_some]
    rw [← hopen]
    rfl
  · intro q hq
    have hs := sortByDay_sorted (List.foldl
      (extractStep (coercedOpt (findCell row .openingInventory))) [] row)
    have : List.Pairwise (fun a b : Nat × DayData => a.1 ≤ b.1) (d0 :: rest) := by
      rw [← hday]
      exact hs
    rcases List.mem_cons.mp (hday ▸ hq) with rfl | hq'
    · exact le_refl _
    · exact (List.pairwise_cons.mp this).1 q hq'

/-- Witness for the amended C4: a day-1-only row opens slot 0 at its
declared value `9`. -/
theorem c4_slot0_opening_amended_witness :
    ((rowRecords 7 c4WitRow).head?).map (fun r => r.openingInventory) = some 9 := by
  have h := c4_slot0_opening_amended 7 c4WitRow ⟨"P2", "Y"⟩ (1, ⟨9, 4, 1, 1, 2⟩) []
    (by decide) (by decide)
  calc ((rowRecords 7 c4WitRow).head?).map (fun r => r.openingInventory)
      = some (if (1 : Nat) = 1 then coercedOpt (findCell c4WitRow .openingInventory) else 0) :=
        h.1
    _ = some 9 := by decide

/-! ## C5 and C6: validation error reporting -/

/-- Shared helper: once the two first-row structural checks pass, any
error found by the row loop is the validator's verdict — the quartet
check never runs. -/
theorem validate_row_error_wins (first : Row) (rest : List Row) (e : ValError)
    (hbase : requiredColumns.filter
      (fun k => !((first.map (fun p => p.1)).any (fun c => decide (c = k)))) = [])
    (hday : (first.map (fun p => p.1)).any ColKey.isDayKey = true)
    (hrow : rowsCheck 1 (first :: rest) = some e) :
    validateExcelFormat (first :: rest) = some e := by
  unfold validateExcelFormat
  simp only [hbase, hday, hrow, ne_eq, not_true_eq_false, if_false, Bool.not_true,
    Bool.false_eq_true, not_false_eq_true, if_true]

/-- C5 fails on the code.  A sheet with defects in rows 1 and 2
(both opening inventories negative) is rejected with the single error
for row 1; the defect in row 2 (shown really to be a defect by its own
`rowCheck`) goes unreported. -/
theorem c5_counterexample :
    validateExcelFormat [c5Row "A" "A1" (-3), c5Row "B" "B1" (-4)]
        = some (.invalidOpeningInventory 1) ∧
    rowCheck 2 (c5Row "B" "B1" (-4)) = some (.invalidOpeningInventory 2) := by
  decide

/-- The 1-based row number a validation error message interpolates;
structural errors reference no row. -/
def ValError.mentionedRow : ValError → Option Nat
  | .emptyProductId n => some n
  | .emptyProductName n => some n
  | .invalidOpeningInventory n => some n
  | .invalidDayCell n _ => some n
  | _ => none

/-- Whatever `rowCheck` reports for row `n` references row `n` and no
other row. -/
theorem rowCheck_mentionedRow (n : Nat) (row : Row) (e : ValError)
    (h : rowCheck n row = some e) : e.mentionedRow = some n := by
  unfold rowCheck at h
  split_ifs at h with h1 h2 h3
  · simp at h
    rw [← h]
    rfl
  · simp at h
    rw [← h]
    rfl
  · simp at h
    rw [← h]
    rfl
  · rcases Option.map_eq_some'.mp h with ⟨kv, _, rfl⟩
    rfl

/-- The row loop, started at number `k`, reports the first defective
row's defect: if row `i` (0-based, numbered `k + i`) is defective and
every earlier row is clean, its error is the loop's verdict. -/
theorem rowsCheck_first_defect :
    ∀ (rows : List Row) (k i : Nat) (row : Row) (e : ValError),
      rows[i]? = some row →
      rowCheck (k + i) row = some e →
      (∀ j, j < i → ∀ rowj, rows[j]? = some rowj → rowCheck (k + j) rowj = none) →
      rowsCheck k rows = some e := by
  intro rows
  induction rows with
  | nil => intro k i row e hrow _ _; simp at hrow
  | cons r rest ih =>
    intro k i row e hrow herr hclean
    cases i with
    | zero =>
      have hr : r = row := by simpa using hrow
      subst hr
      show (match rowCheck k r with
        | some e => some e
        | none => rowsCheck (k + 1) rest) = some e
      have herr' : rowCheck k r = some e := by simpa using herr
      rw [herr']
    | succ i' =>
      have hr0 : rowCheck k r = none := by
        have := hclean 0 (Nat.succ_pos i') r (by simp)
        simpa using this
      show (match rowCheck k r with
        | some e => some e
        | none => rowsCheck (k + 1) rest) = some e
      rw [hr0]
      refine ih (k + 1) i' row e (by simpa using hrow) ?_ ?_
      · have : k + 1 + i' = k + (i' + 1) := by omega
        rw [this]
        exact herr
      · intro j hj rowj hrowj
        have : k + 1 + j = k + (j + 1) := by omega
        rw [this]
        exact hclean (j + 1) (by omega) rowj (by simpa using hrowj)

/-- C5 amended.  For every sheet whose first row passes the two
structural checks, and for every choice of first defective row (row
`i`, all earlier rows clean), validation reports exactly that row's
first defect — whose message references that row and no other — so a
sheet with N row-level defects across N rows yields a failure
mentioning only the first of them, never a collection. -/
theorem c5_first_error_amended (first : Row) (rest : List Row)
    (i : Nat) (row : Row) (e : ValError)
    (hbase : requiredColumns.filter
      (fun k => !((first.map (fun p => p.1)).any (fun c => decide (c = k)))) = [])
    (hday : (first.map (fun p => p.1)).any ColKey.isDayKey = true)
    (hrow : (first :: rest)[i]? = some row)
    (herr : rowCheck (1 + i) row = some e)
    (hclean : ∀ j, j < i → ∀ rowj, (first :: rest)[j]? = some rowj →
      rowCheck (1 + j) rowj = none) :
    validateExcelFormat (first :: rest) = some e ∧
    e.mentionedRow = some (1 + i) := by
  have hrc : rowsCheck 1 (first :: rest) = some e :=
    rowsCheck_first_defect (first :: rest) 1 i row e hrow herr hclean
  exact ⟨validate_row_error_wins first rest e hbase hday hrc,
    rowCheck_mentionedRow (1 + i) row e herr⟩

/-- Witness for the amended C5: a clean first row and a defective
second row; the verdict is the row-2 error and references row 2. -/
theorem c5_first_error_amended_witness :
    validateExcelFormat [c5Row "G" "G1" 8, c5Row "B" "B1" (-2)]
      = some (.invalidOpeningInventory 2) ∧
    (ValError.invalidOpeningInventory 2).mentionedRow = some (1 + 1) :=
  c5_first_error_amended (c5Row "G" "G1" 8) [c5Row "B" "B1" (-2)] 1
    (c5Row "B" "B1" (-2)) (.invalidOpeningInventory 2)
    (by decide) (by decide) (by decide) (by decide)
    (by
      intro j hj rowj hrowj
      have hj0 : j = 0 := by omega
      subst hj0
      have hg : c5Row "G" "G1" 8 = rowj := by simpa using hrowj
      rw [← hg]
      decide)

/-- C6 fails on the code.  `c6Row` has an incomplete day-1 quartet
(three of the four columns are missing) *and* a row-level defect; the
validator reports the row-level error, not the structural quartet
error, because the quartet check runs after the row loop. -/
theorem c6_counterexample :
    validateExcelFormat [c6Row] = some (.invalidOpeningInventory 1) ∧
    quartetMissing (c6Row.map (fun p => p.1)) 1
      = [.procurementPrice 1, .salesQty 1, .salesPrice 1] := by
  decide

/-- C6 amended.  The two first-row structural checks (required base
columns, at least one day-patterned column) do run before the row loop,
but quartet completeness is checked only after it: whenever the row
loop finds any error, that row-level error is the validator's verdict
even if a day quartet is incomplete. -/
theorem c6_row_error_precedes_quartet_amended (first : Row) (rest : List Row) (e : ValError)
    (hbase : requiredColumns.filter
      (fun k => !((first.map (fun p => p.1)).any (fun c => decide (c = k)))) = [])
    (hday : (first.map (fun p => p.1)).any ColKey.isDayKey = true)
    (hrow : rowsCheck 1 (first :: rest) = some e) :
    validateExcelFormat (first :: rest) = some e :=
  validate_row_error_wins first rest e hbase hday hrow

/-- Witness for the amended C6: a sheet whose single row lacks three
quartet columns and has an empty product name is rejected with the
row-level empty-name error. -/
theorem c6_row_error_precedes_quartet_amended_witness :
    validateExcelFormat [c6WitRow] = some (.emptyProductName 1) :=
  c6_row_error_precedes_quartet_amended c6WitRow [] _ (by decide) (by decide) (by decide)

/-! ## Persister characterization helpers

These definitions do not model new source code; they name the data the
transaction loop computes along the way (which product ids get
resolved, which records get collected) so the loop can be reasoned
about by plain induction. -/

/-- The product id an upsert of `pc` would resolve to, when `pc` is
already present. -/
def resolveCode (db : DB) (pc : String) : Option Nat :=
  (db.products.find? (fun p => decide (p.productCode = pc))).map (fun p => p.id)

/-- All the upserts of the transaction loop, without the record
bookkeeping. -/
def upsertAll : List ProductEntry → DB → DB
  | [], db => db
  | prod :: rest, db => upsertAll rest (upsertProduct db prod.productCode prod.name).2

/-- The product ids resolved step by step by the transaction loop. -/
def runIds : List ProductEntry → DB → List Nat
  | [], _ => []
  | prod :: rest, db =>
    (upsertProduct db prod.productCode prod.name).1.id ::
      runIds rest (upsertProduct db prod.productCode prod.name).2

/-- The records the transaction loop collects into `allDailyRecords`. -/
def expectedRecs (pd : ProcessedData) : List ProductEntry → DB → List DailyRecordRow
  | [], _ => []
  | prod :: rest, db =>
    ((pd.records.filter (fun r => decide (r.productCode = prod.productCode))).map
      (toDailyRecord (upsertProduct db prod.productCode prod.name).1.id))
      ++ expectedRecs pd rest (upsertProduct db prod.productCode prod.name).2

/-! ### Upsert lemmas -/

/-- The in-place rename an upsert performs on a hit. -/
def renameRow (pc nm : String) (q : ProductRow) : ProductRow :=
  if q.productCode = pc then ⟨q.id, q.productCode, nm⟩ else q

theorem upsertProduct_found (db : DB) (pc nm : String) (p : ProductRow)
    (h : db.products.find? (fun p => decide (p.productCode = pc)) = some p) :
    upsertProduct db pc nm
      = (⟨p.id, p.productCode, nm⟩,
         { db with products := db.products.map (renameRow pc nm) }) := by
  unfold upsertProduct
  rw [h]
  rfl

theorem upsertProduct_new (db : DB) (pc nm : String)
    (h : db.products.find? (fun p => decide (p.productCode = pc)) = none) :
    upsertProduct db pc nm
      = (⟨db.nextId, pc, nm⟩,
         { db with nextId := db.nextId + 1
                   products := db.products ++ [⟨db.nextId, pc, nm⟩] }) := by
  unfold upsertProduct
  rw [h]

theorem upsertProduct_dailyRecords (db : DB) (pc nm : String) :
    (upsertProduct db pc nm).2.dailyRecords = db.dailyRecords := by
  cases h : db.products.find? (fun p => decide (p.productCode = pc)) with
  | none => rw [upsertProduct_new db pc nm h]
  | some p => rw [upsertProduct_found db pc nm p h]

theorem renameRow_code (pc nm : String) (q : ProductRow) :
    (renameRow pc nm q).productCode = q.productCode := by
  unfold renameRow
  split <;> rfl

theorem renameRow_id (pc nm : String) (q : ProductRow) :
    (renameRow pc nm q).id = q.id := by
  unfold renameRow
  split <;> rfl

theorem find?_map_renameRow (l : List ProductRow) (pc nm x : String) :
    (l.map (renameRow pc nm)).find? (fun p => decide (p.productCode = x))
      = (l.find? (fun p => decide (p.productCode = x))).map (renameRow pc nm) := by
  rw [List.find?_map]
  have hp : ((fun p => decide (p.productCode = x)) ∘ renameRow pc nm)
      = (fun p : ProductRow => decide (p.productCode = x)) := by
    funext q
    simp [Function.comp, renameRow_code]
  rw [hp]

/-- After an upsert of `pc`, looking `pc` up finds exactly the returned
row. -/
theorem upsertProduct_find_self (db : DB) (pc nm : String) :
    (upsertProduct db pc nm).2.products.find? (fun p => decide (p.productCode = pc))
      = some ⟨(upsertProduct db pc nm).1.id, pc, nm⟩ := by
  cases h : db.products.find? (fun p => decide (p.productCode = pc)) with
  | none =>
    rw [upsertProduct_new db pc nm h]
    simp only [List.find?_append, h, Option.none_or]
    simp [List.find?]
  | some p =>
    have hcode : p.productCode = pc := by
      have := List.find?_some h
      simpa using this
    rw [upsertProduct_found db pc nm p h]
    simp only [find?_map_renameRow, h, Option.map_some]
    simp [renameRow, hcode]

/-- An upsert of `pc` leaves the lookup of any other code untouched. -/
theorem upsertProduct_find_other (db : DB) (pc nm x : String) (hx : x ≠ pc) :
    (upsertProduct db pc nm).2.products.find? (fun p => decide (p.productCode = x))
      = db.products.find? (fun p => decide (p.productCode = x)) := by
  cases h : db.products.find? (fun p => decide (p.productCode = pc)) with
  | none =>
    rw [upsertProduct_new db pc nm h]
    simp only [List.find?_append]
    cases hx2 : db.products.find? (fun p => decide (p.productCode = x)) with
    | some q => rfl
    | none =>
      simp only [Option.none_or]
      simp [List.find?, Ne.symm hx]
  | some p =>
    rw [upsertProduct_found db pc nm p h]
    simp only [find?_map_renameRow]
    cases hx2 : db.products.find? (fun p => decide (p.productCode = x)) with
    | none => rfl
    | some q =>
      have hq : q.productCode = x := by
        have := List.find?_some hx2
        simpa using this
      simp [renameRow, hq, hx]

theorem resolveCode_upsert_self (db : DB) (pc nm : String) :
    resolveCode (upsertProduct db pc nm).2 pc = some (upsertProduct db pc nm).1.id := by
  unfold resolveCode
  rw [upsertProduct_find_self]
  rfl

theorem resolveCode_upsert_other (db : DB) (pc nm x : String) (hx : x ≠ pc) :
    resolveCode (upsertProduct db pc nm).2 x = resolveCode db x := by
  unfold resolveCode
  rw [upsertProduct_find_other db pc nm x hx]

theorem upsertProduct_id_of_resolve (db : DB) (pc nm : String) (i : Nat)
    (h : resolveCode db pc = some i) : (upsertProduct db pc nm).1.id = i := by
  unfold resolveCode at h
  cases hf : db.products.find? (fun p => decide (p.productCode = pc)) with
  | none => rw [hf] at h; simp at h
  | some p =>
    rw [hf] at h
    simp at h
    rw [upsertProduct_found db pc nm p hf]
    exact h

theorem upsertProduct_id_of_new (db : DB) (pc nm : String)
    (h : resolveCode db pc = none) : (upsertProduct db pc nm).1.id = db.nextId := by
  unfold resolveCode at h
  cases hf : db.products.find? (fun p => decide (p.productCode = pc)) with
  | none => rw [upsertProduct_new db pc nm hf]
  | some p => rw [hf] at h; simp at h

theorem upsertProduct_nextId_of_resolve (db : DB) (pc nm : String) (i : Nat)
    (h : resolveCode db pc = some i) : (upsertProduct db pc nm).2.nextId = db.nextId := by
  unfold resolveCode at h
  cases hf : db.products.find? (fun p => decide (p.productCode = pc)) with
  | none => rw [hf] at h; simp at h
  | some p => rw [upsertProduct_found db pc nm p hf]

theorem upsertProduct_nextId_of_new (db : DB) (pc nm : String)
    (h : resolveCode db pc = none) : (upsertProduct db pc nm).2.nextId = db.nextId + 1 := by
  unfold resolveCode at h
  cases hf : db.products.find? (fun p => decide (p.productCode = pc)) with
  | none => rw [upsertProduct_new db pc nm hf]
  | some p => rw [hf] at h; simp at h

/-- Upserts of a found code change no resolution at all. -/
theorem resolveCode_upsert_found (db : DB) (pc nm : String) (i : Nat)
    (h : resolveCode db pc = some i) :
    ∀ x, resolveCode (upsertProduct db pc nm).2 x = resolveCode db x := by
  intro x
  by_cases hx : x = pc
  · rw [hx, resolveCode_upsert_self, upsertProduct_id_of_resolve db pc nm i h, h]
  · exact resolveCode_upsert_other db pc nm x hx

/-! ### Records-irrelevance and the transaction-loop characterization -/

theorem upsertProduct_records_irrel (db : DB) (l : List DailyRecordRow) (pc nm : String) :
    upsertProduct { db with dailyRecords := l } pc nm
      = ((upsertProduct db pc nm).1,
         { (upsertProduct db pc nm).2 with dailyRecords := l }) := by
  cases h : db.products.find? (fun p => decide (p.productCode = pc)) with
  | none =>
    rw [upsertProduct_new db pc nm h]
    rw [upsertProduct_new { db with dailyRecords := l } pc nm h]
  | some p =>
    rw [upsertProduct_found db pc nm p h]
    rw [upsertProduct_found { db with dailyRecords := l } pc nm p h]

theorem upsertAll_records_irrel :
    ∀ (ps : List ProductEntry) (db : DB) (l : List DailyRecordRow),
      upsertAll ps { db with dailyRecords := l }
        = { upsertAll ps db with dailyRecords := l } := by
  intro ps
  induction ps with
  | nil => intro db l; rfl
  | cons prod rest ih =>
    intro db l
    show upsertAll rest (upsertProduct { db with dailyRecords := l } prod.productCode prod.name).2
        = _
    rw [upsertProduct_records_irrel]
    exact ih _ l

theorem runIds_records_irrel :
    ∀ (ps : List ProductEntry) (db : DB) (l : List DailyRecordRow),
      runIds ps { db with dailyRecords := l } = runIds ps db := by
  intro ps
  induction ps with
  | nil => intro db l; rfl
  | cons prod rest ih =>
    intro db l
    show ((upsertProduct { db with dailyRecords := l } prod.productCode prod.name).1.id ::
        runIds rest (upsertProduct { db with dailyRecords := l } prod.productCode prod.name).2)
      = _
    rw [upsertProduct_records_irrel]
    rw [runIds]
    exact congrArg₂ _ rfl (ih _ l)

theorem expectedRecs_records_irrel (pd : ProcessedData) :
    ∀ (ps : List ProductEntry) (db : DB) (l : List DailyRecordRow),
      expectedRecs pd ps { db with dailyRecords := l } = expectedRecs pd ps db := by
  intro ps
  induction ps with
  | nil => intro db l; rfl
  | cons prod rest ih =>
    intro db l
    show ((pd.records.filter (fun r => decide (r.productCode = prod.productCode))).map
        (toDailyRecord (upsertProduct { db with dailyRecords := l } prod.productCode prod.name).1.id))
        ++ expectedRecs pd rest (upsertProduct { db with dailyRecords := l } prod.productCode prod.name).2
      = _
    rw [upsertProduct_records_irrel]
    rw [expectedRecs]
    exact congrArg₂ _ rfl (ih _ l)

/-- Pointwise form of the merged delete filters. -/
theorem not_mem_cons_filter (i : Nat) (L : List Nat) (r : DailyRecordRow) :
    (!decide (r.productId ∈ i :: L))
      = ((!decide (r.productId ∈ L)) && !decide (r.productId = i)) := by
  by_cases h1 : r.productId = i <;> by_cases h2 : r.productId ∈ L <;>
    simp [h1, h2]

/-- The transaction loop in closed form: the products evolve by the
upserts alone, the records of the resolved ids are deleted, and the
collected batch is `expectedRecs`. -/
theorem processProducts_eq (pd : ProcessedData) :
    ∀ (ps : List ProductEntry) (db : DB),
      processProducts pd ps db
        = ({ upsertAll ps db with
              dailyRecords := db.dailyRecords.filter
                (fun r => !decide (r.productId ∈ runIds ps db)) },
           expectedRecs pd ps db, ps.length) := by
  intro ps
  induction ps with
  | nil =>
    intro db
    show (db, [], 0) = _
    simp [upsertAll, runIds, expectedRecs]
  | cons prod rest ih =>
    intro db
    show ((processProducts pd rest
            (deleteProductRecords (upsertProduct db prod.productCode prod.name).2
              (upsertProduct db prod.productCode prod.name).1.id)).1,
          ((pd.records.filter (fun r => decide (r.productCode = prod.productCode))).map
            (toDailyRecord (upsertProduct db prod.productCode prod.name).1.id))
            ++ (processProducts pd rest
                (deleteProductRecords (upsertProduct db prod.productCode prod.name).2
                  (upsertProduct db prod.productCode prod.name).1.id)).2.1,
          (processProducts pd rest
            (deleteProductRecords (upsertProduct db prod.productCode prod.name).2
              (upsertProduct db prod.productCode prod.name).1.id)).2.2 + 1)
        = _
    set pr := upsertProduct db prod.productCode prod.name with hpr
    have hdel : deleteProductRecords pr.2 pr.1.id
        = { pr.2 with dailyRecords :=
              db.dailyRecords.filter (fun r => !decide (r.productId = pr.1.id)) } := by
      unfold deleteProductRecords
      rw [upsertProduct_dailyRecords]
    rw [hdel, ih]
    rw [upsertAll_records_irrel, runIds_records_irrel, expectedRecs_records_irrel]
    refine congrArg₂ _ ?_ (congrArg₂ _ ?_ ?_)
    · show ({ upsertAll rest pr.2 with
          dailyRecords := (db.dailyRecords.filter (fun r => !decide (r.productId = pr.1.id))).filter
            (fun r => !decide (r.productId ∈ runIds rest pr.2)) } : DB) = _
      have : upsertAll (prod :: rest) db = upsertAll rest pr.2 := rfl
      rw [this]
      have hrun : runIds (prod :: rest) db = pr.1.id :: runIds rest pr.2 := rfl
      rw [hrun, List.filter_filter]
      refine congrArg _ ?_
      refine List.filter_congr ?_
      intro r hr
      rw [not_mem_cons_filter]
    · rfl
    · rfl

/-! ### Resolution equivalence and stability -/

/-- Two stores that agree on the serial counter and on every code
resolution behave identically under further upserts. -/
def DBEquiv (a b : DB) : Prop :=
  a.nextId = b.nextId ∧ ∀ x, resolveCode a x = resolveCode b x

theorem upsertProduct_equiv (a b : DB) (pc nm : String) (h : DBEquiv a b) :
    (upsertProduct a pc nm).1.id = (upsertProduct b pc nm).1.id ∧
    DBEquiv (upsertProduct a pc nm).2 (upsertProduct b pc nm).2 := by
  rcases h with ⟨hn, hr⟩
  cases hres : resolveCode b pc with
  | some i =>
    have ha : resolveCode a pc = some i := by rw [hr]; exact hres
    refine ⟨?_, ?_, ?_⟩
    · rw [upsertProduct_id_of_resolve a pc nm i ha, upsertProduct_id_of_resolve b pc nm i hres]
    · rw [upsertProduct_nextId_of_resolve a pc nm i ha,
        upsertProduct_nextId_of_resolve b pc nm i hres, hn]
    · intro x
      rw [resolveCode_upsert_found a pc nm i ha x, resolveCode_upsert_found b pc nm i hres x]
      exact hr x
  | none =>
    have ha : resolveCode a pc = none := by rw [hr]; exact hres
    refine ⟨?_, ?_, ?_⟩
    · rw [upsertProduct_id_of_new a pc nm ha, upsertProduct_id_of_new b pc nm hres, hn]
    · rw [upsertProduct_nextId_of_new a pc nm ha, upsertProduct_nextId_of_new b pc nm hres, hn]
    · intro x
      by_cases hx : x = pc
      · rw [hx, resolveCode_upsert_self, resolveCode_upsert_self,
          upsertProduct_id_of_new a pc nm ha, upsertProduct_id_of_new b pc nm hres, hn]
      · rw [resolveCode_upsert_other a pc nm x hx, resolveCode_upsert_other b pc nm x hx]
        exact hr x

theorem runIds_equiv : ∀ (ps : List ProductEntry) (a b : DB), DBEquiv a b →
    runIds ps a = runIds ps b := by
  intro ps
  induction ps with
  | nil => intro a b _; rfl
  | cons prod rest ih =>
    intro a b h
    have hu := upsertProduct_equiv a b prod.productCode prod.name h
    show (upsertProduct a prod.productCode prod.name).1.id ::
        runIds rest (upsertProduct a prod.productCode prod.name).2 = _
    rw [hu.1, ih _ _ hu.2]
    rfl

theorem expectedRecs_equiv (pd : ProcessedData) :
    ∀ (ps : List ProductEntry) (a b : DB), DBEquiv a b →
      expectedRecs pd ps a = expectedRecs pd ps b := by
  intro ps
  induction ps with
  | nil => intro a b _; rfl
  | cons prod rest ih =>
    intro a b h
    have hu := upsertProduct_equiv a b prod.productCode prod.name h
    show ((pd.records.filter (fun r => decide (r.productCode = prod.productCode))).map
        (toDailyRecord (upsertProduct a prod.productCode prod.name).1.id))
        ++ expectedRecs pd rest (upsertProduct a prod.productCode prod.name).2 = _
    rw [hu.1, ih _ _ hu.2]
    rfl

/-- Upserting a code that already resolves leaves the resolution
state equivalent. -/
theorem upsertProduct_equiv_self (db : DB) (pc nm : String) (i : Nat)
    (h : resolveCode db pc = some i) :
    DBEquiv (upsertProduct db pc nm).2 db :=
  ⟨upsertProduct_nextId_of_resolve db pc nm i h,
   fun x => resolveCode_upsert_found db pc nm i h x⟩

/-- Later upserts never change an existing resolution. -/
theorem resolveCode_upsertAll_stable :
    ∀ (ps : List ProductEntry) (db : DB) (x : String) (i : Nat),
      resolveCode db x = some i → resolveCode (upsertAll ps db) x = some i := by
  intro ps
  induction ps with
  | nil => intro db x i h; exact h
  | cons prod rest ih =>
    intro db x i h
    refine ih _ _ _ ?_
    by_cases hx : x = prod.productCode
    · rw [hx] at h ⊢
      rw [resolveCode_upsert_self, upsertProduct_id_of_resolve db prod.productCode prod.name i h]
    · rw [resolveCode_upsert_other db prod.productCode prod.name x hx]
      exact h

/-- Replaying the loop's upserts over the state they produced resolves
the same ids. -/
theorem runIds_upsertAll :
    ∀ (ps : List ProductEntry) (db : DB), runIds ps (upsertAll ps db) = runIds ps db := by
  intro ps
  induction ps with
  | nil => intro db; rfl
  | cons prod rest ih =>
    intro db
    set pr := upsertProduct db prod.productCode prod.name with hpr
    have h1 : resolveCode pr.2 prod.productCode = some pr.1.id := resolveCode_upsert_self _ _ _
    have h2 : resolveCode (upsertAll rest pr.2) prod.productCode = some pr.1.id :=
      resolveCode_upsertAll_stable rest pr.2 _ _ h1
    have hA : upsertAll (prod :: rest) db = upsertAll rest pr.2 := rfl
    show (upsertProduct (upsertAll (prod :: rest) db) prod.productCode prod.name).1.id ::
        runIds rest (upsertProduct (upsertAll (prod :: rest) db) prod.productCode prod.name).2
      = pr.1.id :: runIds rest pr.2
    rw [hA]
    refine congrArg₂ _ ?_ ?_
    · exact upsertProduct_id_of_resolve _ _ _ _ h2
    · rw [runIds_equiv rest _ _ (upsertProduct_equiv_self _ _ _ _ h2)]
      exact ih pr.2

/-- Same replay property for the collected records. -/
theorem expectedRecs_upsertAll (pd : ProcessedData) :
    ∀ (ps : List ProductEntry) (db : DB),
      expectedRecs pd ps (upsertAll ps db) = expectedRecs pd ps db := by
  intro ps
  induction ps with
  | nil => intro db; rfl
  | cons prod rest ih =>
    intro db
    set pr := upsertProduct db prod.productCode prod.name with hpr
    have h1 : resolveCode pr.2 prod.productCode = some pr.1.id := resolveCode_upsert_self _ _ _
    have h2 : resolveCode (upsertAll rest pr.2) prod.productCode = some pr.1.id :=
      resolveCode_upsertAll_stable rest pr.2 _ _ h1
    have hA : upsertAll (prod :: rest) db = upsertAll rest pr.2 := rfl
    show ((pd.records.filter (fun r => decide (r.productCode = prod.productCode))).map
        (toDailyRecord
          (upsertProduct (upsertAll (prod :: rest) db) prod.productCode prod.name).1.id))
        ++ expectedRecs pd rest
            (upsertProduct (upsertAll (prod :: rest) db) prod.productCode prod.name).2
      = ((pd.records.filter (fun r => decide (r.productCode = prod.productCode))).map
          (toDailyRecord pr.1.id)) ++ expectedRecs pd rest pr.2
    rw [hA]
    refine congrArg₂ _ ?_ ?_
    · rw [upsertProduct_id_of_resolve _ _ _ _ h2]
    · rw [expectedRecs_equiv pd rest _ _ (upsertProduct_equiv_self _ _ _ _ h2)]
      exact ih pr.2

/-- Every collected record belongs to one of the resolved ids. -/
theorem mem_expectedRecs_pid (pd : ProcessedData) :
    ∀ (ps : List ProductEntry) (db : DB) (r : DailyRecordRow),
      r ∈ expectedRecs pd ps db → r.productId ∈ runIds ps db := by
  intro ps
  induction ps with
  | nil => intro db r h; simp [expectedRecs] at h
  | cons prod rest ih =>
    intro db r h
    rcases List.mem_append.mp h with h | h
    · rcases List.mem_map.mp h with ⟨re, _, rfl⟩
      exact List.mem_cons_self _ _
    · exact List.mem_cons_of_mem _ (ih _ _ h)

/-- Every collected record comes from a processed record. -/
theorem mem_expectedRecs_source (pd : ProcessedData) :
    ∀ (ps : List ProductEntry) (db : DB) (r : DailyRecordRow),
      r ∈ expectedRecs pd ps db →
      ∃ re ∈ pd.records, ∃ i : Nat, r = toDailyRecord i re := by
  intro ps
  induction ps with
  | nil => intro db r h; simp [expectedRecs] at h
  | cons prod rest ih =>
    intro db r h
    rcases List.mem_append.mp h with h | h
    · rcases List.mem_map.mp h with ⟨re, hre, rfl⟩
      exact ⟨re, (List.mem_filter.mp hre).1, _, rfl⟩
    · exact ih _ _ h

/-! ### Committed-state characterization -/

theorem uploadProcessed_some (pd : ProcessedData) (db db' : DB) (s : Summary)
    (h : uploadProcessed pd db = some (db', s)) :
    db' = { upsertAll pd.products db with
            dailyRecords :=
              db.dailyRecords.filter
                (fun r => !decide (r.productId ∈ runIds pd.products db))
              ++ expectedRecs pd pd.products db } ∧
    (expectedRecs pd pd.products db ≠ [] →
      ((db.dailyRecords.filter (fun r => !decide (r.productId ∈ runIds pd.products db))
        ++ expectedRecs pd pd.products db).map recordKey).Nodup) := by
  unfold uploadProcessed at h
  rw [processProducts_eq] at h
  by_cases he : expectedRecs pd pd.products db = []
  · rw [he] at h
    simp only [if_pos rfl] at h
    rcases h with ⟨rfl, rfl⟩  
    refine ⟨?_, fun hne => absurd he hne⟩
    rw [he, List.append_nil]
  · rw [if_neg ?hne] at h
    case hne => exact he
    by_cases hn : ((db.dailyRecords.filter
        (fun r => !decide (r.productId ∈ runIds pd.products db))
        ++ expectedRecs pd pd.products db).map recordKey).Nodup
    · rw [if_pos hn] at h
      rcases h with ⟨rfl, rfl⟩
      exact ⟨rfl, fun _ => hn⟩
    · rw [if_neg hn] at h
      exact absurd h (by simp)

/-- C1.  Every `DailyRecord` a successful upload adds to storage
satisfies `closingInventory = openingInventory + procurementQty -
salesQty`; no floor at zero is applied, so a negative closing balance
is stored as-is (the witness exhibits one). -/
theorem c1_closing_formula (anchor : ℤ) (rows : List Row) (db db' : DB) (s : Summary)
    (hup : uploadSheet anchor rows db = some (db', s)) :
    ∀ r ∈ db'.dailyRecords,
      r ∈ db.dailyRecords ∨
      r.closingInventory = r.openingInventory + r.procurementQty - r.salesQty := by
  unfold uploadSheet at hup
  cases hv : validateExcelFormat rows with
  | some e => rw [hv] at hup; exact absurd hup (by simp)
  | none =>
    rw [hv] at hup
    obtain ⟨hdb, _⟩ := uploadProcessed_some _ _ _ _ hup
    intro r hr
    rw [hdb] at hr
    rcases List.mem_append.mp hr with hr | hr
    · exact Or.inl (List.mem_of_mem_filter hr)
    · right
      obtain ⟨re, hre, i, rfl⟩ := mem_expectedRecs_source _ _ _ _ hr
      have hlaw : re.closingInventory
          = re.openingInventory + re.procurementQty - re.salesQty := by
        rcases mem_processExcelData_records.mp hre with ⟨row, hrow, hmem⟩
        exact rowRecords_law hmem
      exact hlaw

/-- The one-row sheet behind the C1 witness: opening 1, sales 5, so
the closing balance is negative. -/
def c1Row : Row :=
  [(ColKey.id, CellVal.str "C1"),
   (ColKey.productName, CellVal.str "N"),
   (ColKey.openingInventory, CellVal.num 1)]
    ++ dayQuartet 1 0 0 5 2

/-- The store committed by uploading `[c1Row]` into an empty store. -/
def c1DB : DB :=
  ⟨2, [⟨1, "C1", "N"⟩], [⟨1, 0, 1, 0, 0, 5, 2, -4⟩]⟩

/-- The single committed record of the C1 witness. -/
def c1Rec : DailyRecordRow :=
  ⟨1, 0, 1, 0, 0, 5, 2, -4⟩

/-- Witness for C1: the committed record closes at `-4 < 0` and the
law holds on it. -/
theorem c1_closing_formula_witness :
    c1Rec.closingInventory < 0 ∧
    c1Rec ∈ c1DB.dailyRecords ∧
    (c1Rec ∈ (DB.mk 1 [] []).dailyRecords ∨
      c1Rec.closingInventory
        = c1Rec.openingInventory + c1Rec.procurementQty - c1Rec.salesQty) :=
  ⟨by decide, by decide,
   c1_closing_formula 0 [c1Row] ⟨1, [], []⟩ c1DB ⟨1, 1⟩ (by decide) c1Rec (by decide)⟩

/-- C7.  Re-running the same upload is idempotent on the records
table: the second run deletes exactly what the first inserted for the
affected products and re-inserts the identical batch, and any rejected
or rolled-back run leaves the store untouched — so two consecutive
uploads of one sheet leave exactly the records one upload leaves. -/
theorem c7_idempotent_replace (anchor : ℤ) (rows : List Row) (db : DB) :
    (applyUpload anchor rows (applyUpload anchor rows db)).dailyRecords
      = (applyUpload anchor rows db).dailyRecords := by
  cases h1 : uploadSheet anchor rows db with
  | none =>
    have happ : applyUpload anchor rows db = db := by
      unfold applyUpload
      rw [h1]
    rw [happ, happ]
  | some out =>
    rcases out with ⟨db1, s⟩
    have happ : applyUpload anchor rows db = db1 := by
      unfold applyUpload
      rw [h1]
    rw [happ]
    have hv : validateExcelFormat rows = none := by
      cases hv2 : validateExcelFormat rows with
      | none => rfl
      | some e =>
        unfold uploadSheet at h1
        rw [hv2] at h1
        exact absurd h1 (by simp)
    have huproc : uploadProcessed (processExcelData anchor rows) db = some (db1, s) := by
      unfold uploadSheet at h1
      rw [hv] at h1
      exact h1
    set pd := processExcelData anchor rows with hpd
    obtain ⟨hdb1, hnd⟩ := uploadProcessed_some pd db db1 s huproc
    set F := db.dailyRecords.filter
      (fun r => !decide (r.productId ∈ runIds pd.products db)) with hF
    set E := expectedRecs pd pd.products db with hE
    have hrun1 : runIds pd.products db1 = runIds pd.products db := by
      rw [hdb1, runIds_records_irrel, runIds_upsertAll]
    have hE1 : expectedRecs pd pd.products db1 = E := by
      rw [hdb1, expectedRecs_records_irrel, expectedRecs_upsertAll]
    have hrecs1 : db1.dailyRecords = F ++ E := by
      rw [hdb1]
    have hF1 : db1.dailyRecords.filter
        (fun r => !decide (r.productId ∈ runIds pd.products db1)) = F := by
      rw [hrun1, hrecs1, List.filter_append]
      have ha : F.filter (fun r => !decide (r.productId ∈ runIds pd.products db)) = F :=
        List.filter_eq_self.mpr (fun a ha => (List.mem_filter.mp ha).2)
      have hb : E.filter (fun r => !decide (r.productId ∈ runIds pd.products db)) = [] :=
        List.filter_eq_nil_iff.mpr (fun r hr => by
          simp [mem_expectedRecs_pid pd pd.products db r hr])
      rw [ha, hb, List.append_nil]
    have hup2 : uploadProcessed pd db1
        = if E = []
          then some ({ upsertAll pd.products db1 with dailyRecords := F },
                     ⟨pd.products.length, 0⟩)
          else if ((F ++ E).map recordKey).Nodup
          then some ({ upsertAll pd.products db1 with dailyRecords := F ++ E },
                     ⟨pd.products.length, E.length⟩)
          else none := by
      unfold uploadProcessed
      rw [processProducts_eq, hF1, hE1]
    have hsheet2 : uploadSheet anchor rows db1 = uploadProcessed pd db1 := by
      unfold uploadSheet
      rw [hv]
    by_cases he : E = []
    · have : uploadSheet anchor rows db1
          = some ({ upsertAll pd.products db1 with dailyRecords := F },
                  ⟨pd.products.length, 0⟩) := by
        rw [hsheet2, hup2, if_pos he]
      unfold applyUpload
      rw [this]
      show F = db1.dailyRecords
      rw [hrecs1, he, List.append_nil]
    · have : uploadSheet anchor rows db1
          = some ({ upsertAll pd.products db1 with dailyRecords := F ++ E },
                  ⟨pd.products.length, E.length⟩) := by
        rw [hsheet2, hup2, if_neg he, if_pos (hnd he)]
      unfold applyUpload
      rw [this]
      show F ++ E = db1.dailyRecords
      rw [hrecs1]

/-! ### Duplicate product codes and the unique-key constraint -/

/-- When a later loop step processes code `c` again, it re-collects the
whole record share of `c` under the already-resolved id. -/
theorem expectedRecs_mem_of_later (pd : ProcessedData) (c : String) :
    ∀ (ps : List ProductEntry) (db : DB) (i : Nat),
      resolveCode db c = some i →
      c ∈ ps.map (fun p => p.productCode) →
      ∀ r ∈ pd.records.filter (fun r => decide (r.productCode = c)),
        toDailyRecord i r ∈ expectedRecs pd ps db := by
  intro ps
  induction ps with
  | nil => intro db i _ hmem; simp at hmem
  | cons prod rest ih =>
    intro db i hres hmem r hr
    by_cases hc : prod.productCode = c
    · refine List.mem_append.mpr (Or.inl ?_)
      have hid : (upsertProduct db prod.productCode prod.name).1.id = i := by
        rw [hc]
        exact upsertProduct_id_of_resolve db c prod.name i hres
      rw [hid]
      exact List.mem_map.mpr ⟨r, by rw [hc]; exact hr, rfl⟩
    · refine List.mem_append.mpr (Or.inr ?_)
      have hmem' : c ∈ rest.map (fun p => p.productCode) := by
        rw [List.map_cons] at hmem
        rcases List.mem_cons.mp hmem with h | h
        · exact absurd h.symm hc
        · exact h
      have hres' : resolveCode (upsertProduct db prod.productCode prod.name).2 c = some i := by
        rw [resolveCode_upsert_other db prod.productCode prod.name c (fun h => hc h.symm)]
        exact hres
      exact ih _ _ hres' hmem' r hr

/-- A code occurring at least twice in the loop, with a nonempty record
share, duplicates a `(productId, recordDate)` key in the collected
batch. -/
theorem expectedRecs_dup_keys (pd : ProcessedData) (c : String) :
    ∀ (ps : List ProductEntry) (db : DB),
      2 ≤ (ps.map (fun p => p.productCode)).count c →
      pd.records.filter (fun r => decide (r.productCode = c)) ≠ [] →
      ¬ ((expectedRecs pd ps db).map recordKey).Nodup := by
  intro ps
  induction ps with
  | nil => intro db hcount _; simp at hcount
  | cons prod rest ih =>
    intro db hcount hrec
    obtain ⟨r0, hr0⟩ := List.exists_mem_of_ne_nil _ hrec
    by_cases hc : prod.productCode = c
    · have hcount' : 1 ≤ (rest.map (fun p => p.productCode)).count c := by
        have : ((prod :: rest).map (fun p => p.productCode)).count c
            = (rest.map (fun p => p.productCode)).count c + 1 := by
          simp [List.count_cons, hc]
        omega
      have hmem : c ∈ rest.map (fun p => p.productCode) :=
        List.count_pos_iff_mem.mp (by omega)
      set pr := upsertProduct db prod.productCode prod.name with hpr
      have hres : resolveCode pr.2 c = some pr.1.id := by
        rw [← hc]
        exact resolveCode_upsert_self db prod.productCode prod.name
      have hin2 : toDailyRecord pr.1.id r0 ∈ expectedRecs pd rest pr.2 :=
        expectedRecs_mem_of_later pd c rest pr.2 pr.1.id hres hmem r0 hr0
      have hin1 : toDailyRecord pr.1.id r0
          ∈ (pd.records.filter (fun r => decide (r.productCode = prod.productCode))).map
              (toDailyRecord pr.1.id) := by
        refine List.mem_map.mpr ⟨r0, ?_, rfl⟩
        rw [hc]
        exact hr0
      intro hnodup
      rw [show expectedRecs pd (prod :: rest) db
            = (pd.records.filter (fun r => decide (r.productCode = prod.productCode))).map
                (toDailyRecord pr.1.id) ++ expectedRecs pd rest pr.2 from rfl,
        List.map_append] at hnodup
      rcases List.nodup_append.mp hnodup with ⟨_, _, hdisj⟩
      exact hdisj (List.mem_map_of_mem recordKey hin1) (List.mem_map_of_mem recordKey hin2)
    · have hcount' : 2 ≤ (rest.map (fun p => p.productCode)).count c := by
        have : ((prod :: rest).map (fun p => p.productCode)).count c
            = (rest.map (fun p => p.productCode)).count c := by
          simp [List.count_cons, hc]
        omega
      intro hnodup
      rw [show expectedRecs pd (prod :: rest) db
            = (pd.records.filter (fun r => decide (r.productCode = prod.productCode))).map
                (toDailyRecord (upsertProduct db prod.productCode prod.name).1.id)
              ++ expectedRecs pd rest (upsertProduct db prod.productCode prod.name).2 from rfl,
        List.map_append] at hnodup
      exact ih _ hcount' hrec (List.nodup_append.mp hnodup).2.1

/-- A validated sheet: one normal product plus two identical rows that
share the ID "B" but carry no day columns at all. -/
def c10MainRow : Row :=
  [(ColKey.id, CellVal.str "P1"),
   (ColKey.productName, CellVal.str "Main"),
   (ColKey.openingInventory, CellVal.num 10)]
    ++ dayQuartet 1 2 1 1 1

/-- A row with an ID and a name but no day columns. -/
def c10BareRow : Row :=
  [(ColKey.id, CellVal.str "B"),
   (ColKey.productName, CellVal.str "Bare"),
   (ColKey.openingInventory, CellVal.num 7)]

/-- A duplicated full row for the amended-C10 witness. -/
def c10DupRow : Row :=
  [(ColKey.id, CellVal.str "D"),
   (ColKey.productName, CellVal.str "Dup"),
   (ColKey.openingInventory, CellVal.num 3)]
    ++ dayQuartet 1 1 1 1 1

/-- C10 fails as stated.  A sheet can pass validation, contain two
rows with the same ID ("B"), and still commit successfully — when the
duplicated ID has no day observations, its record share is empty, so
the bulk insert violates nothing and the request succeeds. -/
theorem c10_counterexample :
    validateExcelFormat [c10MainRow, c10BareRow, c10BareRow] = none ∧
    (((processExcelData 0 [c10MainRow, c10BareRow, c10BareRow]).products.map
        (fun p => p.productCode)).count "B") = 2 ∧
    (uploadSheet 0 [c10MainRow, c10BareRow, c10BareRow] ⟨1, [], []⟩).isSome = true := by
  decide

/-- C10 amended.  If a validated sheet contains the same ID twice
*and that ID owns at least one day observation*, the duplicated record
share violates the unique `(productId, recordDate)` key inside the bulk
insert, the transaction rolls back, the request reports an error, and
storage is unchanged. -/
theorem c10_duplicate_code_rollback_amended (anchor : ℤ) (rows : List Row) (db : DB)
    (c : String)
    (hv : validateExcelFormat rows = none)
    (hdup : 2 ≤ (((processExcelData anchor rows).products.map
        (fun p => p.productCode)).count c))
    (hrec : (processExcelData anchor rows).records.filter
        (fun r => decide (r.productCode = c)) ≠ []) :
    uploadSheet anchor rows db = none ∧ applyUpload anchor rows db = db := by
  set pd := processExcelData anchor rows with hpd
  have hnd := expectedRecs_dup_keys pd c pd.products db hdup hrec
  have hEne : expectedRecs pd pd.products db ≠ [] := by
    intro h
    rw [h] at hnd
    simp at hnd
  have hnone : uploadSheet anchor rows db = none := by
    unfold uploadSheet
    rw [hv]
    unfold uploadProcessed
    rw [processProducts_eq]
    rw [if_neg hEne, if_neg ?hcond]
    case hcond =>
      intro hnodup
      rw [List.map_append] at hnodup
      exact hnd (List.nodup_append.mp hnodup).2.1
  refine ⟨hnone, ?_⟩
  unfold applyUpload
  rw [hnone]

/-- Witness for the amended C10: two identical full rows with ID "D"
roll the whole upload back. -/
theorem c10_duplicate_code_rollback_amended_witness :
    uploadSheet 0 [c10DupRow, c10DupRow] ⟨1, [], []⟩ = none ∧
    applyUpload 0 [c10DupRow, c10DupRow] ⟨1, [], []⟩ = ⟨1, [], []⟩ :=
  c10_duplicate_code_rollback_amended 0 [c10DupRow, c10DupRow] ⟨1, [], []⟩ "D"
    (by decide) (by decide) (by decide)

/-! ### Well-formedness and membership of the products table -/

theorem upsertProduct_wf (db : DB) (pc nm : String) (h : db.wf) :
    (upsertProduct db pc nm).2.wf := by
  rcases h with ⟨hcodes, hids, hbound⟩
  cases hf : db.products.find? (fun p => decide (p.productCode = pc)) with
  | some p =>
    rw [upsertProduct_found db pc nm p hf]
    refine ⟨?_, ?_, ?_⟩
    · show ((db.products.map (renameRow pc nm)).map (fun p => p.productCode)).Nodup
      rw [List.map_map]
      have : (fun p => p.productCode) ∘ renameRow pc nm
          = (fun p : ProductRow => p.productCode) := by
        funext q
        exact renameRow_code pc nm q
      rw [this]
      exact hcodes
    · show ((db.products.map (renameRow pc nm)).map (fun p => p.id)).Nodup
      rw [List.map_map]
      have : (fun p => p.id) ∘ renameRow pc nm = (fun p : ProductRow => p.id) := by
        funext q
        exact renameRow_id pc nm q
      rw [this]
      exact hids
    · intro p' hp'
      rcases List.mem_map.mp hp' with ⟨q, hq, rfl⟩
      show (renameRow pc nm q).id < db.nextId
      rw [renameRow_id]
      exact hbound q hq
  | none =>
    rw [upsertProduct_new db pc nm hf]
    have hnotin : ∀ q ∈ db.products, q.productCode ≠ pc := by
      intro q hq
      have := List.find?_eq_none.mp hf q hq
      simpa using this
    refine ⟨?_, ?_, ?_⟩
    · show ((db.products ++ [ProductRow.mk db.nextId pc nm]).map
          (fun p => p.productCode)).Nodup
      rw [List.map_append, List.map_singleton]
      refine List.nodup_append.mpr ⟨hcodes, List.nodup_singleton _, ?_⟩
      intro x hx hx2
      rcases List.mem_map.mp hx with ⟨q, hq, rfl⟩
      rcases List.mem_singleton.mp hx2 with h'
      exact hnotin q hq (by simpa using h')
    · show ((db.products ++ [ProductRow.mk db.nextId pc nm]).map (fun p => p.id)).Nodup
      rw [List.map_append, List.map_singleton]
      refine List.nodup_append.mpr ⟨hids, List.nodup_singleton _, ?_⟩
      intro x hx hx2
      rcases List.mem_map.mp hx with ⟨q, hq, rfl⟩
      rcases List.mem_singleton.mp hx2 with h'
      have := hbound q hq
      simp only [show (ProductRow.mk db.nextId pc nm).id = db.nextId from rfl] at h'
      omega
    · intro p' hp'
      rcases List.mem_append.mp hp' with hp' | hp'
      · have := hbound p' hp'
        show p'.id < db.nextId + 1
        omega
      · rcases List.mem_singleton.mp hp' with rfl
        show db.nextId < db.nextId + 1
        omega

theorem upsertAll_wf : ∀ (ps : List ProductEntry) (db : DB), db.wf → (upsertAll ps db).wf := by
  intro ps
  induction ps with
  | nil => intro db h; exact h
  | cons prod rest ih =>
    intro db h
    exact ih _ (upsertProduct_wf db prod.productCode prod.name h)

theorem find?_code_of_mem_nodup :
    ∀ (l : List ProductRow), (l.map (fun p => p.productCode)).Nodup →
      ∀ p ∈ l, l.find? (fun q => decide (q.productCode = p.productCode)) = some p := by
  intro l
  induction l with
  | nil => intro _ p hp; simp at hp
  | cons q rest ih =>
    intro hn p hp
    obtain ⟨hq, hrest⟩ :
        (∀ x ∈ rest, ¬x.productCode = q.productCode) ∧
          ((rest.map (fun p => p.productCode)).Nodup) := by
      simpa [List.map_cons] using hn
    rcases List.mem_cons.mp hp with rfl | hp'
    · exact List.find?_cons_of_pos _ (by simp)
    · have hne : ¬(q.productCode = p.productCode) := by
        intro he
        exact hq p hp' he.symm
      rw [List.find?_cons_of_neg _ (by simpa using hne)]
      exact ih hrest p hp'

theorem resolveCode_mem (db : DB) (pc : String) (i : Nat)
    (h : resolveCode db pc = some i) :
    ∃ q ∈ db.products, q.productCode = pc ∧ q.id = i := by
  unfold resolveCode at h
  cases hf : db.products.find? (fun p => decide (p.productCode = pc)) with
  | none => rw [hf] at h; simp at h
  | some q =>
    rw [hf] at h
    simp at h
    refine ⟨q, List.mem_of_find?_eq_some hf, ?_, h⟩
    have := List.find?_some hf
    simpa using this

/-- Resolutions of distinct codes in a well-formed store are distinct. -/
theorem resolveCode_inj (db : DB) (hwf : db.wf) (c1 c2 : String) (i : Nat)
    (h1 : resolveCode db c1 = some i) (h2 : resolveCode db c2 = some i) : c1 = c2 := by
  obtain ⟨q1, hq1, hc1, hi1⟩ := resolveCode_mem db c1 i h1
  obtain ⟨q2, hq2, hc2, hi2⟩ := resolveCode_mem db c2 i h2
  have : q1 = q2 := by
    have hinj := List.inj_on_of_nodup_map hwf.2.1
    exact hinj hq1 hq2 (by rw [hi1, hi2])
  rw [← hc1, ← hc2, this]

theorem upsertAll_registers :
    ∀ (ps : List ProductEntry) (db : DB) (prod : ProductEntry), prod ∈ ps →
      ∃ i, resolveCode (upsertAll ps db) prod.productCode = some i := by
  intro ps
  induction ps with
  | nil => intro db prod h; simp at h
  | cons q rest ih =>
    intro db prod hmem
    rcases List.mem_cons.mp hmem with rfl | hmem'
    · exact ⟨(upsertProduct db prod.productCode prod.name).1.id,
        resolveCode_upsertAll_stable rest _ _ _ (resolveCode_upsert_self db _ _)⟩
    · exact ih _ prod hmem'

/-- Each code's final resolution is one of the loop's resolved ids. -/
theorem resolved_mem_runIds :
    ∀ (ps : List ProductEntry) (db : DB) (prod : ProductEntry), prod ∈ ps →
      ∀ j, resolveCode (upsertAll ps db) prod.productCode = some j → j ∈ runIds ps db := by
  intro ps
  induction ps with
  | nil => intro db prod h; simp at h
  | cons q rest ih =>
    intro db prod hmem j hres
    rcases List.mem_cons.mp hmem with rfl | hmem'
    · have hstable : resolveCode (upsertAll rest (upsertProduct db prod.productCode prod.name).2)
          prod.productCode = some (upsertProduct db prod.productCode prod.name).1.id :=
        resolveCode_upsertAll_stable rest _ _ _ (resolveCode_upsert_self db _ _)
      have : j = (upsertProduct db prod.productCode prod.name).1.id := by
        have := hres.symm.trans hstable
        simpa using this
      rw [this]
      exact List.mem_cons_self _ _
    · exact List.mem_cons_of_mem _ (ih _ prod hmem' j hres)

theorem upsertProduct_preserves_rows (db : DB) (pc nm : String) :
    ∀ q ∈ db.products,
      ∃ q' ∈ (upsertProduct db pc nm).2.products,
        q'.id = q.id ∧ q'.productCode = q.productCode := by
  intro q hq
  cases hf : db.products.find? (fun p => decide (p.productCode = pc)) with
  | some p =>
    rw [upsertProduct_found db pc nm p hf]
    exact ⟨renameRow pc nm q, List.mem_map_of_mem _ hq,
      renameRow_id pc nm q, renameRow_code pc nm q⟩
  | none =>
    rw [upsertProduct_new db pc nm hf]
    exact ⟨q, List.mem_append.mpr (Or.inl hq), rfl, rfl⟩

theorem upsertAll_preserves_rows :
    ∀ (ps : List ProductEntry) (db : DB), ∀ q ∈ db.products,
      ∃ q' ∈ (upsertAll ps db).products, q'.id = q.id ∧ q'.productCode = q.productCode := by
  intro ps
  induction ps with
  | nil => intro db q hq; exact ⟨q, hq, rfl, rfl⟩
  | cons prod rest ih =>
    intro db q hq
    obtain ⟨q1, hq1, hid1, hc1⟩ :=
      upsertProduct_preserves_rows db prod.productCode prod.name q hq
    obtain ⟨q2, hq2, hid2, hc2⟩ := ih _ q1 hq1
    exact ⟨q2, hq2, hid2.trans hid1, hc2.trans hc1⟩

/-! ### Name updates: the last occurrence of a code wins -/

theorem mem_of_getLast?_eq_some {α : Type} {l : List α} {a : α}
    (h : l.getLast? = some a) : a ∈ l := by
  have h' : a ∈ l.getLast? := h
  obtain ⟨hne, he⟩ := List.mem_getLast?_eq_getLast h'
  rw [he]
  exact List.getLast_mem hne

theorem find?_upsertAll_other :
    ∀ (ps : List ProductEntry) (db : DB) (c : String),
      (∀ prod ∈ ps, prod.productCode ≠ c) →
      (upsertAll ps db).products.find? (fun p => decide (p.productCode = c))
        = db.products.find? (fun p => decide (p.productCode = c)) := by
  intro ps
  induction ps with
  | nil => intro db c _; rfl
  | cons q rest ih =>
    intro db c hnone
    show (upsertAll rest (upsertProduct db q.productCode q.name).2).products.find?
        (fun p => decide (p.productCode = c)) = _
    rw [ih _ _ (fun pr hpr => hnone pr (List.mem_cons_of_mem _ hpr))]
    exact upsertProduct_find_other db q.productCode q.name c
      (fun he => hnone q (List.mem_cons_self _ _) he.symm)

theorem upsertAll_find_last :
    ∀ (ps : List ProductEntry) (db : DB) (prod : ProductEntry),
      (ps.filter (fun p => decide (p.productCode = prod.productCode))).getLast? = some prod →
      ∃ i, (upsertAll ps db).products.find?
          (fun p => decide (p.productCode = prod.productCode))
        = some ⟨i, prod.productCode, prod.name⟩ := by
  intro ps
  induction ps with
  | nil => intro db prod h; simp at h
  | cons q rest ih =>
    intro db prod hlast
    by_cases hc : q.productCode = prod.productCode
    · rw [List.filter_cons, if_pos (by simpa using hc)] at hlast
      cases hrest : rest.filter (fun p => decide (p.productCode = prod.productCode)) with
      | nil =>
        rw [hrest] at hlast
        have hq : q = prod := by simpa using hlast
        subst hq
        have hnone : ∀ pr' ∈ rest, pr'.productCode ≠ q.productCode := by
          intro pr' hpr' he
          have hmem : pr' ∈ rest.filter (fun p => decide (p.productCode = q.productCode)) :=
            List.mem_filter.mpr ⟨hpr', by simp [he]⟩
          rw [hrest] at hmem
          simp at hmem
        show ∃ i, (upsertAll rest (upsertProduct db q.productCode q.name).2).products.find?
            (fun p => decide (p.productCode = q.productCode))
          = some ⟨i, q.productCode, q.name⟩
        rw [find?_upsertAll_other rest _ _ hnone]
        exact ⟨(upsertProduct db q.productCode q.name).1.id,
          upsertProduct_find_self db q.productCode q.name⟩
      | cons a t =>
        rw [hrest, List.getLast?_cons_cons] at hlast
        have hlast' : (rest.filter
            (fun p => decide (p.productCode = prod.productCode))).getLast? = some prod := by
          rw [hrest, ← List.getLast?_cons_cons (a := a)]
          exact hlast
        exact ih _ prod hlast'
    · rw [List.filter_cons, if_neg (by simpa using hc)] at hlast
      exact ih _ prod hlast

/-- C8.  A committed upload never creates two `Product` rows with
one code; every pre-existing row survives with its id and code intact
(only the name is mutable); every uploaded code ends up present; and
the row of an uploaded code carries the name of that code's last
occurrence in the sheet. -/
theorem c8_upsert_law (anchor : ℤ) (rows : List Row) (db db' : DB) (s : Summary)
    (hwf : db.wf)
    (hup : uploadSheet anchor rows db = some (db', s)) :
    ((db'.products.map (fun p => p.productCode)).Nodup) ∧
    (∀ q ∈ db.products, ∃ q' ∈ db'.products,
      q'.id = q.id ∧ q'.productCode = q.productCode) ∧
    (∀ prod ∈ (processExcelData anchor rows).products,
      ∃ q' ∈ db'.products, q'.productCode = prod.productCode) ∧
    (∀ prod ∈ (processExcelData anchor rows).products,
      ((processExcelData anchor rows).products.filter
        (fun p => decide (p.productCode = prod.productCode))).getLast? = some prod →
      ∃ q' ∈ db'.products, q'.productCode = prod.productCode ∧ q'.name = prod.name) := by
  unfold uploadSheet at hup
  cases hv : validateExcelFormat rows with
  | some e => rw [hv] at hup; exact absurd hup (by simp)
  | none =>
    rw [hv] at hup
    obtain ⟨hdb, _⟩ := uploadProcessed_some _ _ _ _ hup
    set pd := processExcelData anchor rows with hpd
    have hprods : db'.products = (upsertAll pd.products db).products := by
      rw [hdb]
    refine ⟨?_, ?_, ?_, ?_⟩
    · rw [hprods]
      exact (upsertAll_wf pd.products db hwf).1
    · intro q hq
      rw [hprods]
      exact upsertAll_preserves_rows pd.products db q hq
    · intro prod hprod
      obtain ⟨i, hres⟩ := upsertAll_registers pd.products db prod hprod
      obtain ⟨q', hq', hcode, _⟩ := resolveCode_mem _ _ _ hres
      rw [hprods]
      exact ⟨q', hq', hcode⟩
    · intro prod hprod hlastocc
      obtain ⟨i, hfind⟩ := upsertAll_find_last pd.products db prod hlastocc
      rw [hprods]
      exact ⟨⟨i, prod.productCode, prod.name⟩, List.mem_of_find?_eq_some hfind, rfl, rfl⟩

/-- The pre-existing store of the C8 witness: code "P001" already
present under the name "Old". -/
def c8DB0 : DB := ⟨2, [⟨1, "P001", "Old"⟩], []⟩

/-- The uploaded row renaming "P001". -/
def c8Row : Row :=
  [(ColKey.id, CellVal.str "P001"),
   (ColKey.productName, CellVal.str "New"),
   (ColKey.openingInventory, CellVal.num 4)]
    ++ dayQuartet 1 1 1 1 1

/-- The store after the C8 witness upload. -/
def c8DB1 : DB := ⟨2, [⟨1, "P001", "New"⟩], [⟨1, 0, 4, 1, 1, 1, 1, 4⟩]⟩

/-- Witness for C8 at a concrete upload over an existing code. -/
theorem c8_upsert_law_witness :
    ((c8DB1.products.map (fun p => p.productCode)).Nodup) ∧
    (∀ q ∈ c8DB0.products, ∃ q' ∈ c8DB1.products,
      q'.id = q.id ∧ q'.productCode = q.productCode) ∧
    (∀ prod ∈ (processExcelData 0 [c8Row]).products,
      ∃ q' ∈ c8DB1.products, q'.productCode = prod.productCode) ∧
    (∀ prod ∈ (processExcelData 0 [c8Row]).products,
      ((processExcelData 0 [c8Row]).products.filter
        (fun p => decide (p.productCode = prod.productCode))).getLast? = some prod →
      ∃ q' ∈ c8DB1.products, q'.productCode = prod.productCode ∧ q'.name = prod.name) :=
  c8_upsert_law 0 [c8Row] c8DB0 c8DB1 ⟨1, 1⟩ ⟨by decide, by decide, by decide⟩ (by decide)

/-! ## C9: rows with zero day observations -/

/-- A normal product row for the C9 sheets. -/
def c9MainRow : Row :=
  [(ColKey.id, CellVal.str "A9"),
   (ColKey.productName, CellVal.str "Main9"),
   (ColKey.openingInventory, CellVal.num 6)]
    ++ dayQuartet 1 2 1 1 1

/-- A valid row with no recognized day columns at all. -/
def c9BareRow : Row :=
  [(ColKey.id, CellVal.str "B9"),
   (ColKey.productName, CellVal.str "Bare9"),
   (ColKey.openingInventory, CellVal.num 7)]

/-- C9 fails as stated.  In a validated sheet, the row "B9" has an
empty day-observation set, yet its product identity *is* written: after
the upload the products table contains "B9" (with a fresh id) even
though no `DailyRecord` was created for it. -/
theorem c9_counterexample :
    validateExcelFormat [c9MainRow, c9BareRow] = none ∧
    rowIdentity c9BareRow = some ⟨"B9", "Bare9"⟩ ∧
    extractDayColumns c9BareRow = [] ∧
    ((applyUpload 0 [c9MainRow, c9BareRow] ⟨1, [], []⟩).products.map
        (fun p => p.productCode)) = ["A9", "B9"] ∧
    ((applyUpload 0 [c9MainRow, c9BareRow] ⟨1, [], []⟩).dailyRecords.map
        (fun r => r.productId)) = [1] := by
  decide

/-- C9 amended.  A valid row with zero day observations contributes
no `DailyRecord`s, but its product identity *is* still registered: the
loop pushes the product before the zero-day check, so a successful
upload leaves the code present in the products table. -/
theorem c9_zero_day_product_amended (anchor : ℤ) (rows : List Row) (db db' : DB)
    (s : Summary) (row : Row) (p : ProductEntry)
    (hrow : row ∈ rows) (hid : rowIdentity row = some p)
    (hdays : extractDayColumns row = [])
    (hup : uploadSheet anchor rows db = some (db', s)) :
    rowRecords anchor row = [] ∧
    ∃ q ∈ db'.products, q.productCode = p.productCode := by
  constructor
  · unfold rowRecords
    rw [hid, hdays]
    rfl
  · unfold uploadSheet at hup
    cases hv : validateExcelFormat rows with
    | some e => rw [hv] at hup; exact absurd hup (by simp)
    | none =>
      rw [hv] at hup
      obtain ⟨hdb, _⟩ := uploadProcessed_some _ _ _ _ hup
      have hmem : p ∈ (processExcelData anchor rows).products := by
        rw [processExcelData_eq]
        exact List.mem_filterMap.mpr ⟨row, hrow, hid⟩
      obtain ⟨i, hres⟩ := upsertAll_registers (processExcelData anchor rows).products db p hmem
      obtain ⟨q', hq', hcode, _⟩ := resolveCode_mem _ _ _ hres
      rw [hdb]
      exact ⟨q', hq', hcode⟩

/-- The store after the C9 witness upload. -/
def c9DB1 : DB :=
  ⟨3, [⟨1, "A9", "Main9"⟩, ⟨2, "B9", "Bare9"⟩], [⟨1, 0, 6, 2, 1, 1, 1, 7⟩]⟩

/-- Witness for the amended C9 at a concrete sheet. -/
theorem c9_zero_day_product_amended_witness :
    rowRecords 0 c9BareRow = [] ∧
    ∃ q ∈ c9DB1.products, q.productCode = "B9" :=
  c9_zero_day_product_amended 0 [c9MainRow, c9BareRow] ⟨1, [], []⟩ c9DB1 ⟨2, 1⟩
    c9BareRow ⟨"B9", "Bare9"⟩ (by simp) (by decide) (by decide) (by decide)

/-! ### The committed ledger of one product -/

/-- Filtering the collected batch by one resolved id yields the record
share of that id's code — once per occurrence of the code in the
loop. -/
theorem expectedRecs_filter_pid (pd : ProcessedData) (c : String) :
    ∀ (ps : List ProductEntry) (db : DB) (i : Nat),
      db.wf →
      resolveCode (upsertAll ps db) c = some i →
      (expectedRecs pd ps db).filter (fun r => decide (r.productId = i))
        = (List.replicate ((ps.map (fun p => p.productCode)).count c)
            ((pd.records.filter (fun r => decide (r.productCode = c))).map
              (toDailyRecord i))).join := by
  intro ps
  induction ps with
  | nil =>
    intro db i _ _
    simp [expectedRecs]
  | cons q rest ih =>
    intro db i hwf hres
    set pr := upsertProduct db q.productCode q.name with hpr
    have hwf2 : pr.2.wf := upsertProduct_wf db q.productCode q.name hwf
    have hresr : resolveCode (upsertAll rest pr.2) c = some i := hres
    have hself : resolveCode (upsertAll rest pr.2) q.productCode = some pr.1.id :=
      resolveCode_upsertAll_stable rest pr.2 _ _ (resolveCode_upsert_self db _ _)
    have hsplit : expectedRecs pd (q :: rest) db
        = ((pd.records.filter (fun r => decide (r.productCode = q.productCode))).map
            (toDailyRecord pr.1.id)) ++ expectedRecs pd rest pr.2 := rfl
    rw [hsplit, List.filter_append, ih pr.2 i hwf2 hresr]
    by_cases hc : q.productCode = c
    · have hid : pr.1.id = i := by
        have := hself
        rw [hc] at this
        have := this.symm.trans hresr
        simpa using this
      have hA : ((pd.records.filter (fun r => decide (r.productCode = q.productCode))).map
          (toDailyRecord pr.1.id)).filter (fun r => decide (r.productId = i))
          = (pd.records.filter (fun r => decide (r.productCode = c))).map
              (toDailyRecord i) := by
        rw [hc, hid]
        refine List.filter_eq_self.mpr ?_
        intro a ha
        rcases List.mem_map.mp ha with ⟨re, _, rfl⟩
        simp [toDailyRecord]
      have hcount : ((q :: rest).map (fun p => p.productCode)).count c
          = ((rest.map (fun p => p.productCode)).count c) + 1 := by
        simp [List.count_cons, hc]
      rw [hA, hcount, List.replicate_succ]
      rfl
    · have hid : pr.1.id ≠ i := by
        intro he
        have hwfA : (upsertAll rest pr.2).wf := upsertAll_wf rest pr.2 hwf2
        have := resolveCode_inj _ hwfA q.productCode c i (he ▸ hself) hresr
        exact hc this
      have hA : ((pd.records.filter (fun r => decide (r.productCode = q.productCode))).map
          (toDailyRecord pr.1.id)).filter (fun r => decide (r.productId = i)) = [] := by
        refine List.filter_eq_nil_iff.mpr ?_
        intro a ha
        rcases List.mem_map.mp ha with ⟨re, _, rfl⟩
        simp [toDailyRecord, hid]
      have hcount : ((q :: rest).map (fun p => p.productCode)).count c
          = (rest.map (fun p => p.productCode)).count c := by
        simp [List.count_cons, hc]
      rw [hA, hcount, List.nil_append]

/-- Every record a row contributes carries that row's identity code. -/
theorem rowRecords_code (anchor : ℤ) (row : Row) :
    ∀ r ∈ rowRecords anchor row,
      ∃ p, rowIdentity row = some p ∧ r.productCode = p.productCode := by
  intro r hr
  unfold rowRecords at hr
  cases hid : rowIdentity row with
  | none => rw [hid] at hr; simp at hr
  | some p =>
    rw [hid] at hr
    exact ⟨p, rfl, ledgerFrom_code _ _ _ _ _ _ _ hr⟩

/-- The per-row ledgers satisfy both adjacency laws. -/
theorem rowRecords_chain_balance (anchor : ℤ) (row : Row) :
    List.Chain' (fun a b => b.openingInventory = a.closingInventory)
      (rowRecords anchor row) := by
  unfold rowRecords
  cases rowIdentity row with
  | none => simp
  | some p => exact ledgerFrom_chain_balance _ _ _ _ _ _

theorem rowRecords_chain_dates (anchor : ℤ) (row : Row) :
    List.Chain' (fun a b => b.recordDate = a.recordDate + 1)
      (rowRecords anchor row) := by
  unfold rowRecords
  cases rowIdentity row with
  | none => simp
  | some p => exact ledgerFrom_chain_dates _ _ _ _ _ _ (by simp)

/-- A code occurring in at most one valid row has a chained record
share: it is exactly that row's ledger (or empty). -/
theorem chain_filter_code (anchor : ℤ) (R : RecordEntry → RecordEntry → Prop)
    (hrowchain : ∀ row : Row, List.Chain' R (rowRecords anchor row)) (c : String) :
    ∀ rows : List Row,
      ((rows.filterMap rowIdentity).map (fun p => p.productCode)).count c ≤ 1 →
      List.Chain' R ((rows.flatMap (rowRecords anchor)).filter
        (fun r => decide (r.productCode = c))) := by
  intro rows
  induction rows with
  | nil => intro _; simp
  | cons row rest ih =>
    intro hcount
    rw [List.flatMap_cons, List.filter_append]
    cases hid : rowIdentity row with
    | none =>
      have hrr : rowRecords anchor row = [] := by
        unfold rowRecords
        rw [hid]
      rw [hrr]
      show List.Chain' R (([] : List RecordEntry).filter _ ++ _)
      rw [List.filter_nil, List.nil_append]
      refine ih ?_
      rw [List.filterMap_cons_none hid] at hcount
      exact hcount
    | some p =>
      rw [List.filterMap_cons_some hid] at hcount
      by_cases hc : p.productCode = c
      · have hcount0 : ((rest.filterMap rowIdentity).map (fun p => p.productCode)).count c
            = 0 := by
          rw [List.map_cons, List.count_cons] at hcount
          simp [hc] at hcount
          omega
        have hnil : (rest.flatMap (rowRecords anchor)).filter
            (fun r => decide (r.productCode = c)) = [] := by
          refine List.filter_eq_nil_iff.mpr ?_
          intro r hr
          rcases List.mem_flatMap.mp hr with ⟨row2, hrow2, hmem2⟩
          obtain ⟨p2, hid2, hcode2⟩ := rowRecords_code anchor row2 r hmem2
          intro hdec
          have hc2 : r.productCode = c := by simpa using hdec
          have hp2mem : p2.productCode
              ∈ (rest.filterMap rowIdentity).map (fun p => p.productCode) :=
            List.mem_map_of_mem _ (List.mem_filterMap.mpr ⟨row2, hrow2, hid2⟩)
          rw [← hcode2, hc2] at hp2mem
          have := List.count_pos_iff_mem.mpr hp2mem
          omega
        have hself : (rowRecords anchor row).filter (fun r => decide (r.productCode = c))
            = rowRecords anchor row := by
          refine List.filter_eq_self.mpr ?_
          intro r hr
          obtain ⟨p2, hid2, hcode2⟩ := rowRecords_code anchor row r hr
          rw [hid] at hid2
          have : p2 = p := by
            have h2 := hid2
            simp at h2
            exact h2.symm
          simp [hcode2, this, hc]
        rw [hnil, hself, List.append_nil]
        exact hrowchain row
      · have hself : (rowRecords anchor row).filter (fun r => decide (r.productCode = c))
            = [] := by
          refine List.filter_eq_nil_iff.mpr ?_
          intro r hr
          obtain ⟨p2, hid2, hcode2⟩ := rowRecords_code anchor row r hr
          rw [hid] at hid2
          have : p2 = p := by
            have h2 := hid2
            simp at h2
            exact h2.symm
          simp [hcode2, this, hc]
        rw [hself, List.nil_append]
        refine ih ?_
        rw [List.map_cons, List.count_cons] at hcount
        omega

/-- C2.  In a committed upload, for every affected product (one
whose code appears in the processed sheet), the stored records of that
product's id form a chain in which each record's `openingInventory`
equals the previous record's `closingInventory`, and consecutive
records are dated on consecutive days (the list is stored in date
order, so adjacency in the list is adjacency by date). -/
theorem c2_round_trip_balance (anchor : ℤ) (rows : List Row) (db db' : DB) (s : Summary)
    (hwf : db.wf)
    (hup : uploadSheet anchor rows db = some (db', s)) :
    ∀ p ∈ db'.products,
      p.productCode ∈ ((processExcelData anchor rows).products.map (fun q => q.productCode)) →
      List.Chain' (fun a b => b.openingInventory = a.closingInventory)
        (db'.dailyRecords.filter (fun r => decide (r.productId = p.id))) ∧
      List.Chain' (fun a b => b.recordDate = a.recordDate + 1)
        (db'.dailyRecords.filter (fun r => decide (r.productId = p.id))) := by
  unfold uploadSheet at hup
  cases hv : validateExcelFormat rows with
  | some e => rw [hv] at hup; exact absurd hup (by simp)
  | none =>
    rw [hv] at hup
    obtain ⟨hdb, hnd⟩ := uploadProcessed_some _ _ _ _ hup
    intro p hp hcode
    have hrecs : db'.dailyRecords
        = db.dailyRecords.filter
            (fun r => !decide (r.productId ∈ runIds (processExcelData anchor rows).products db))
          ++ expectedRecs (processExcelData anchor rows)
              (processExcelData anchor rows).products db := by
      rw [hdb]
    have hprods : db'.products
        = (upsertAll (processExcelData anchor rows).products db).products := by
      rw [hdb]
    have hwfA : (upsertAll (processExcelData anchor rows).products db).wf :=
      upsertAll_wf _ _ hwf
    have hres : resolveCode (upsertAll (processExcelData anchor rows).products db)
        p.productCode = some p.id := by
      unfold resolveCode
      rw [find?_code_of_mem_nodup _ hwfA.1 p (by rw [← hprods]; exact hp)]
      rfl
    obtain ⟨prod0, hprod0, hpc0⟩ := List.mem_map.mp hcode
    have hidmem : p.id ∈ runIds (processExcelData anchor rows).products db :=
      resolved_mem_runIds _ db prod0 hprod0 p.id (by rw [hpc0]; exact hres)
    have hFnil : (db.dailyRecords.filter
        (fun r => !decide (r.productId ∈ runIds (processExcelData anchor rows).products db))).filter
          (fun r => decide (r.productId = p.id)) = [] := by
      refine List.filter_eq_nil_iff.mpr ?_
      intro r hr
      have hnotin : r.productId ∉ runIds (processExcelData anchor rows).products db := by
        have := (List.mem_filter.mp hr).2
        simpa using this
      intro hdec
      have hre : r.productId = p.id := by simpa using hdec
      rw [hre] at hnotin
      exact hnotin hidmem
    have hEfil := expectedRecs_filter_pid (processExcelData anchor rows) p.productCode
      (processExcelData anchor rows).products db p.id hwf hres
    have hfilter : db'.dailyRecords.filter (fun r => decide (r.productId = p.id))
        = (List.replicate
            (((processExcelData anchor rows).products.map
                (fun q => q.productCode)).count p.productCode)
            (((processExcelData anchor rows).records.filter
                (fun r => decide (r.productCode = p.productCode))).map
              (toDailyRecord p.id))).join := by
      rw [hrecs, List.filter_append, hFnil, List.nil_append, hEfil]
    have hjoin_nil : ∀ k : Nat, (List.replicate k ([] : List DailyRecordRow)).join = [] := by
      intro k
      induction k with
      | zero => rfl
      | succ m ihm => simp [List.replicate_succ, ihm]
    by_cases hSnil : (processExcelData anchor rows).records.filter
        (fun r => decide (r.productCode = p.productCode)) = []
    · rw [hfilter, hSnil]
      simp only [List.map_nil, hjoin_nil]
      exact ⟨List.chain'_nil, List.chain'_nil⟩
    · have hn1 : (((processExcelData anchor rows).products.map
          (fun q => q.productCode)).count p.productCode) = 1 := by
        have hpos : 1 ≤ (((processExcelData anchor rows).products.map
            (fun q => q.productCode)).count p.productCode) :=
          List.count_pos_iff_mem.mpr hcode
        rcases Nat.lt_or_ge (((processExcelData anchor rows).products.map
            (fun q => q.productCode)).count p.productCode) 2 with hlt | hge
        · omega
        · exfalso
          have hdup := expectedRecs_dup_keys (processExcelData anchor rows) p.productCode
            (processExcelData anchor rows).products db hge hSnil
          have hEne : expectedRecs (processExcelData anchor rows)
              (processExcelData anchor rows).products db ≠ [] := by
            intro h0
            rw [h0] at hdup
            simp at hdup
          have hnodup := hnd hEne
          rw [List.map_append] at hnodup
          exact hdup (List.nodup_append.mp hnodup).2.1
      have hjoin : (List.replicate
          (((processExcelData anchor rows).products.map
              (fun q => q.productCode)).count p.productCode)
          (((processExcelData anchor rows).records.filter
              (fun r => decide (r.productCode = p.productCode))).map
            (toDailyRecord p.id))).join
          = ((processExcelData anchor rows).records.filter
              (fun r => decide (r.productCode = p.productCode))).map
            (toDailyRecord p.id) := by
        rw [hn1]
        simp
      have hcount1 : ((rows.filterMap rowIdentity).map
          (fun q => q.productCode)).count p.productCode ≤ 1 := by
        have hpp : (processExcelData anchor rows).products = rows.filterMap rowIdentity := by
          rw [processExcelData_eq]
        rw [← hpp]
        omega
      have hrecords : (processExcelData anchor rows).records
          = rows.flatMap (rowRecords anchor) := by
        rw [processExcelData_eq]
      rw [hfilter, hjoin]
      constructor
      · refine (List.chain'_map _).mpr ?_
        have := chain_filter_code anchor
          (fun a b => b.openingInventory = a.closingInventory)
          (rowRecords_chain_balance anchor) p.productCode rows hcount1
        rw [← hrecords] at this
        exact this
      · refine (List.chain'_map _).mpr ?_
        have := chain_filter_code anchor
          (fun a b => b.recordDate = a.recordDate + 1)
          (rowRecords_chain_dates anchor) p.productCode rows hcount1
        rw [← hrecords] at this
        exact this

/-- The two-day row of the C2 witness (second day oversells, so the
chain passes through a negative closing balance). -/
def c2Row : Row :=
  [(ColKey.id, CellVal.str "C2"),
   (ColKey.productName, CellVal.str "T"),
   (ColKey.openingInventory, CellVal.num 10)]
    ++ dayQuartet 1 5 2 3 4 ++ dayQuartet 2 0 0 20 6

/-- The store after the C2 witness upload. -/
def c2DB1 : DB :=
  ⟨2, [⟨1, "C2", "T"⟩],
   [⟨1, -1, 10, 5, 2, 3, 4, 12⟩, ⟨1, 0, 12, 0, 0, 20, 6, -8⟩]⟩

/-- Witness for C2 at a concrete committed two-day ledger. -/
theorem c2_round_trip_balance_witness :
    List.Chain' (fun a b => b.openingInventory = a.closingInventory)
      (c2DB1.dailyRecords.filter
        (fun r => decide (r.productId = (ProductRow.mk 1 "C2" "T").id))) ∧
    List.Chain' (fun a b => b.recordDate = a.recordDate + 1)
      (c2DB1.dailyRecords.filter
        (fun r => decide (r.productId = (ProductRow.mk 1 "C2" "T").id))) :=
  c2_round_trip_balance 0 [c2Row] ⟨1, [], []⟩ c2DB1 ⟨1, 2⟩
    ⟨by decide, by decide, by decide⟩ (by decide) ⟨1, "C2", "T"⟩ (by decide) (by decide)

end Dashboard
